import Mathlib

/-!
Verification of the codeql-mcp query-server protocol client

This development is a shallow embedding of the codeql-mcp repository's core
components: the Content-Length frame codec with its JSON payload layer, the
`CodeQLQueryServer` protocol client (request ids, pending-request registry,
progress dispatch, blocking wait adapters), the symbol locator, and the
server-side tool implementations (`register_database`, `test_predicate_impl`,
`decode_bqrs`).

Bytes of the wire protocol are modelled as natural numbers (one `Nat` per
byte of the model alphabet).  JSON payloads are modelled by the inductive
type `Json` below; strings are byte lists, numbers are integers.  The
serializer mirrors `json.dumps` with compact separators: strings are quoted
with `"`, the quote and backslash bytes are backslash-escaped, and control
bytes below 32 are emitted as `\u00XX` escapes, so a serialized body never
contains a byte below 32 and in particular never contains the carriage
return used by the frame separator.
-/

namespace CodeqlMcp

/-- Byte view of a Lean string literal (used only for ASCII literals). -/
def strBytes (s : String) : List Nat := s.data.map Char.toNat

/-! ## Decimal digits -/

/-- Most-significant-first decimal digit bytes of a positive number, with
explicit fuel so that the definition is structural (and kernel-reducible). -/
def natBytesAux : Nat → Nat → List Nat
  | 0, _ => []
  | _, 0 => []
  | fuel+1, m+1 => natBytesAux fuel ((m+1) / 10) ++ [48 + (m+1) % 10]

/-- Decimal representation of a natural number as ASCII digit bytes. -/
def natBytes (n : Nat) : List Nat := if n = 0 then [48] else natBytesAux n n

/-- Decimal representation of an integer (optional leading minus byte 45). -/
def intBytes (n : Int) : List Nat :=
  if n < 0 then 45 :: natBytes n.natAbs else natBytes n.toNat

/-- Is the byte an ASCII decimal digit? -/
def isDigitByte (b : Nat) : Bool := 48 ≤ b && b ≤ 57

/-- Value of a most-significant-first digit byte list. -/
def digitsVal (ds : List Nat) : Nat := ds.foldl (fun a b => 10 * a + (b - 48)) 0

/-- Parse a nonempty run of leading decimal digits; returns the value and
the unconsumed remainder. -/
def parseNat (cs : List Nat) : Option (Nat × List Nat) :=
  let ds := cs.takeWhile isDigitByte
  if ds.isEmpty then none else some (digitsVal ds, cs.drop ds.length)

theorem natBytesAux_digits (m : Nat) : ∀ fuel, m ≤ fuel →
    ∀ b ∈ natBytesAux fuel m, 48 ≤ b ∧ b ≤ 57 := by
  induction m using Nat.strong_induction_on with
  | _ m ih =>
    intro fuel hm b hb
    match fuel, m, hm with
    | 0, 0, _ => simp [natBytesAux] at hb
    | fuel + 1, 0, _ => simp [natBytesAux] at hb
    | fuel + 1, m + 1, hm =>
      rw [natBytesAux] at hb
      rcases List.mem_append.mp hb with h | h
      · exact ih ((m+1) / 10) (Nat.div_lt_self (Nat.succ_pos m) (by omega)) fuel
          (by omega) b h
      · have : b = 48 + (m+1) % 10 := by simpa using h
        omega

theorem natBytes_digits (n : Nat) : ∀ b ∈ natBytes n, 48 ≤ b ∧ b ≤ 57 := by
  intro b hb
  unfold natBytes at hb
  by_cases h : n = 0
  · rw [if_pos h] at hb
    simp at hb
    omega
  · rw [if_neg h] at hb
    exact natBytesAux_digits n n (le_refl n) b hb

theorem natBytesAux_ne_nil (m fuel : Nat) (hm : 0 < m) (hf : m ≤ fuel) :
    natBytesAux fuel m ≠ [] := by
  match fuel, m, hm with
  | 0, m + 1, _ => omega
  | fuel + 1, m + 1, _ =>
    rw [natBytesAux]
    simp

theorem natBytes_ne_nil (n : Nat) : natBytes n ≠ [] := by
  unfold natBytes
  by_cases h : n = 0
  · simp [h]
  · rw [if_neg h]
    exact natBytesAux_ne_nil n n (Nat.pos_of_ne_zero h) (le_refl n)

theorem digitsVal_append (l : List Nat) (d : Nat) :
    digitsVal (l ++ [d]) = 10 * digitsVal l + (d - 48) := by
  unfold digitsVal
  rw [List.foldl_append]
  rfl

theorem digitsVal_natBytesAux (m : Nat) : ∀ fuel, m ≤ fuel →
    digitsVal (natBytesAux fuel m) = m := by
  induction m using Nat.strong_induction_on with
  | _ m ih =>
    intro fuel hm
    match fuel, m, hm with
    | 0, 0, _ => rfl
    | fuel + 1, 0, _ => rfl
    | fuel + 1, m + 1, hm =>
      rw [natBytesAux, digitsVal_append,
        ih ((m+1) / 10) (Nat.div_lt_self (Nat.succ_pos m) (by omega)) fuel (by omega)]
      omega

theorem digitsVal_natBytes (n : Nat) : digitsVal (natBytes n) = n := by
  unfold natBytes
  by_cases h : n = 0
  · simp [h, digitsVal]
  · rw [if_neg h]
    exact digitsVal_natBytesAux n n (le_refl n)

/-- Any list whose head is not a digit (or which is empty) is safe to follow
a serialized number: the greedy digit scan will not consume into it. -/
def nonDigitHead : List Nat → Prop
  | [] => True
  | b :: _ => ¬(48 ≤ b ∧ b ≤ 57)

theorem takeWhile_digits_append (A : List Nat) (hA : ∀ b ∈ A, 48 ≤ b ∧ b ≤ 57)
    (rest : List Nat) (hrest : nonDigitHead rest) :
    (A ++ rest).takeWhile isDigitByte = A ∧
      (A ++ rest).drop A.length = rest := by
  constructor
  · induction A with
    | nil =>
      cases rest with
      | nil => rfl
      | cons b t =>
        simp only [List.nil_append, List.takeWhile]
        have : isDigitByte b = false := by
          simp only [nonDigitHead] at hrest
          simp [isDigitByte]
          omega
        simp [this]
    | cons a A ih =>
      have ha := hA a (by simp)
      simp only [List.cons_append, List.takeWhile]
      have : isDigitByte a = true := by simp [isDigitByte]; omega
      rw [this]
      simp only [List.cons.injEq, true_and]
      exact ih (fun b hb => hA b (by simp [hb]))
  · simp

theorem parseNat_natBytes (n : Nat) (rest : List Nat) (hrest : nonDigitHead rest) :
    parseNat (natBytes n ++ rest) = some (n, rest) := by
  obtain ⟨htake, hdrop⟩ := takeWhile_digits_append (natBytes n) (natBytes_digits n) rest hrest
  unfold parseNat
  rw [htake]
  rw [if_neg (by simpa [List.isEmpty_iff] using natBytes_ne_nil n)]
  rw [digitsVal_natBytes, hdrop]

/-! ## Hex escapes -/

/-- Lower-case hex digit byte for a value below 16. -/
def hexByte (m : Nat) : Nat := if m < 10 then 48 + m else 87 + m

/-- Value of a hex digit byte, if it is one. -/
def hexValOpt (b : Nat) : Option Nat :=
  if 48 ≤ b ∧ b ≤ 57 then some (b - 48)
  else if 97 ≤ b ∧ b ≤ 102 then some (b - 87)
  else if 65 ≤ b ∧ b ≤ 70 then some (b - 55)
  else none

theorem hexValOpt_hexByte (m : Nat) (h : m < 16) : hexValOpt (hexByte m) = some m := by
  interval_cases m <;> decide

/-! ## JSON string escaping -/

/-- Escape a single string byte the way `json.dumps` does: quote and
backslash get a backslash escape, control bytes below 32 become `\u00XX`,
anything else is emitted verbatim. -/
def escByte (b : Nat) : List Nat :=
  if b = 34 then [92, 34]
  else if b = 92 then [92, 92]
  else if b < 32 then [92, 117, 48, 48, hexByte (b / 16), hexByte (b % 16)]
  else [b]

/-- Escape a whole string body. -/
def escBytes : List Nat → List Nat
  | [] => []
  | b :: rest => escByte b ++ escBytes rest

/-- Serialized form of a JSON string: quote, escaped body, quote. -/
def serStr (s : List Nat) : List Nat := 34 :: escBytes s ++ [34]

theorem escBytes_cons (b : Nat) (s : List Nat) :
    escBytes (b :: s) = escByte b ++ escBytes s := rfl

theorem escByte_length_pos (b : Nat) : 0 < (escByte b).length := by
  unfold escByte
  split
  · simp
  · split
    · simp
    · split <;> simp

/-! ## The JSON payload model

Payloads exchanged with the query server are JSON values.  Strings are
byte lists of the model alphabet; numbers are integers. -/

mutual
inductive Json where
  | null : Json
  | bool (b : Bool) : Json
  | num (n : Int) : Json
  | str (s : List Nat) : Json
  | arr (es : JArr) : Json
  | obj (ms : JObj) : Json
deriving DecidableEq
inductive JArr where
  | nil : JArr
  | cons (j : Json) (rest : JArr) : JArr
deriving DecidableEq
inductive JObj where
  | nil : JObj
  | cons (k : List Nat) (v : Json) (rest : JObj) : JObj
deriving DecidableEq
end

mutual
/-- Compact JSON serialization (mirrors `json.dumps` with `,`/`:` separators). -/
def serJson : Json → List Nat
  | .null => [110, 117, 108, 108]
  | .bool true => [116, 114, 117, 101]
  | .bool false => [102, 97, 108, 115, 101]
  | .num n => intBytes n
  | .str s => serStr s
  | .arr .nil => [91, 93]
  | .arr es => 91 :: serArr es ++ [93]
  | .obj .nil => [123, 125]
  | .obj ms => 123 :: serObj ms ++ [125]
/-- Comma-separated serialization of array elements. -/
def serArr : JArr → List Nat
  | .nil => []
  | .cons j .nil => serJson j
  | .cons j rest => serJson j ++ 44 :: serArr rest
/-- Comma-separated serialization of object members. -/
def serObj : JObj → List Nat
  | .nil => []
  | .cons k v .nil => serStr k ++ 58 :: serJson v
  | .cons k v rest => serStr k ++ 58 :: serJson v ++ 44 :: serObj rest
end

mutual
/-- Parser fuel sufficient for a value (each recursion level consumes one). -/
def jsonFuel : Json → Nat
  | .arr .nil => 1
  | .arr es => 1 + arrFuel es
  | .obj .nil => 1
  | .obj ms => 1 + objFuel ms
  | _ => 1
/-- Parser fuel sufficient for an array tail. -/
def arrFuel : JArr → Nat
  | .nil => 0
  | .cons j rest => 1 + max (jsonFuel j) (arrFuel rest)
/-- Parser fuel sufficient for an object tail. -/
def objFuel : JObj → Nat
  | .nil => 0
  | .cons _ v rest => 1 + max (jsonFuel v) (objFuel rest)
end

/-! ## The JSON parser -/

/-- Decode one escape sequence after a backslash. -/
def decodeEsc : List Nat → Option (Nat × List Nat)
  | 34 :: r => some (34, r)
  | 92 :: r => some (92, r)
  | 117 :: h1 :: h2 :: h3 :: h4 :: r =>
    match hexValOpt h1, hexValOpt h2, hexValOpt h3, hexValOpt h4 with
    | some v1, some v2, some v3, some v4 => some (v1 * 4096 + v2 * 256 + v3 * 16 + v4, r)
    | _, _, _, _ => none
  | _ => none

/-- Parse a string body up to (and consuming) the closing quote. -/
def parseStrBody : Nat → List Nat → Option (List Nat × List Nat)
  | 0, _ => none
  | _, [] => none
  | fuel+1, b :: rest =>
    if b = 34 then some ([], rest)
    else if b = 92 then
      (decodeEsc rest).bind (fun vr => (parseStrBody fuel vr.2).map (fun p => (vr.1 :: p.1, p.2)))
    else (parseStrBody fuel rest).map (fun p => (b :: p.1, p.2))

/-- Consume an expected literal byte sequence. -/
def expectBytes : List Nat → List Nat → Option (List Nat)
  | [], input => some input
  | p :: ps, b :: input => if b = p then expectBytes ps input else none
  | _ :: _, [] => none

mutual
/-- Recursive-descent JSON parser over the model byte alphabet, with fuel. -/
def parseJson : Nat → List Nat → Option (Json × List Nat)
  | 0, _ => none
  | _+1, [] => none
  | fuel+1, b :: rest =>
    if 48 ≤ b ∧ b ≤ 57 then (parseNat (b :: rest)).map (fun p => (Json.num (p.1 : Int), p.2))
    else if b = 45 then (parseNat rest).map (fun p => (Json.num (-(p.1 : Int)), p.2))
    else if b = 110 then (expectBytes [117, 108, 108] rest).map (fun r => (Json.null, r))
    else if b = 116 then (expectBytes [114, 117, 101] rest).map (fun r => (Json.bool true, r))
    else if b = 102 then (expectBytes [97, 108, 115, 101] rest).map (fun r => (Json.bool false, r))
    else if b = 34 then (parseStrBody rest.length rest).map (fun p => (Json.str p.1, p.2))
    else if b = 91 then
      if rest.head? = some 93 then some (Json.arr JArr.nil, rest.tail)
      else (parseElems fuel rest).map (fun p => (Json.arr p.1, p.2))
    else if b = 123 then
      if rest.head? = some 125 then some (Json.obj JObj.nil, rest.tail)
      else (parseMembers fuel rest).map (fun p => (Json.obj p.1, p.2))
    else none
/-- Parse one or more comma-separated elements up to the closing bracket. -/
def parseElems : Nat → List Nat → Option (JArr × List Nat)
  | 0, _ => none
  | fuel+1, input =>
    (parseJson fuel input).bind (fun jr =>
      if jr.2.head? = some 44 then
        (parseElems fuel jr.2.tail).map (fun p => (JArr.cons jr.1 p.1, p.2))
      else if jr.2.head? = some 93 then some (JArr.cons jr.1 JArr.nil, jr.2.tail)
      else none)
/-- Parse one or more comma-separated members up to the closing brace. -/
def parseMembers : Nat → List Nat → Option (JObj × List Nat)
  | 0, _ => none
  | fuel+1, input =>
    if input.head? = some 34 then
      (parseStrBody input.tail.length input.tail).bind (fun kr =>
        if kr.2.head? = some 58 then
          (parseJson fuel kr.2.tail).bind (fun vr =>
            if vr.2.head? = some 44 then
              (parseMembers fuel vr.2.tail).map (fun p => (JObj.cons kr.1 vr.1 p.1, p.2))
            else if vr.2.head? = some 125 then some (JObj.cons kr.1 vr.1 JObj.nil, vr.2.tail)
            else none)
        else none)
    else none
end

/-! ## String and literal round trips -/

theorem parseStrBody_escBytes (s : List Nat) : ∀ fuel rest,
    (escBytes s).length + 1 ≤ fuel →
    parseStrBody fuel (escBytes s ++ 34 :: rest) = some (s, rest) := by
  induction s with
  | nil =>
    intro fuel rest hf
    match fuel, hf with
    | fuel + 1, _ => simp [escBytes, parseStrBody]
  | cons b s ih =>
    intro fuel rest hf
    rw [escBytes_cons] at hf ⊢
    rw [List.append_assoc]
    rw [List.length_append] at hf
    have hb := escByte_length_pos b
    match fuel, hf with
    | fuel + 1, hf =>
      have hfuel : (escBytes s).length + 1 ≤ fuel := by omega
      by_cases h34 : b = 34
      · subst h34
        rw [show escByte 34 = [92, 34] from rfl]
        simp only [List.cons_append, List.nil_append]
        rw [parseStrBody, if_neg (by decide : ¬(92 : Nat) = 34), if_pos (rfl : (92 : Nat) = 92)]
        show Option.map _ (parseStrBody fuel (escBytes s ++ 34 :: rest)) = _
        rw [ih fuel rest hfuel]
        rfl
      · by_cases h92 : b = 92
        · subst h92
          rw [show escByte 92 = [92, 92] from rfl]
          simp only [List.cons_append, List.nil_append]
          rw [parseStrBody, if_neg (by decide : ¬(92 : Nat) = 34), if_pos (rfl : (92 : Nat) = 92)]
          show Option.map _ (parseStrBody fuel (escBytes s ++ 34 :: rest)) = _
          rw [ih fuel rest hfuel]
          rfl
        · by_cases hc : b < 32
          · rw [show escByte b = [92, 117, 48, 48, hexByte (b / 16), hexByte (b % 16)] from by
              rw [escByte, if_neg h34, if_neg h92, if_pos hc]]
            simp only [List.cons_append, List.nil_append]
            rw [parseStrBody, if_neg (by decide : ¬(92 : Nat) = 34), if_pos (rfl : (92 : Nat) = 92)]
            rw [show decodeEsc (117 :: 48 :: 48 :: hexByte (b / 16) :: hexByte (b % 16) ::
                  (escBytes s ++ 34 :: rest)) =
                some (0 * 4096 + 0 * 256 + b / 16 * 16 + b % 16, escBytes s ++ 34 :: rest) from by
              rw [decodeEsc]
              rw [hexValOpt_hexByte (b / 16) (by omega), hexValOpt_hexByte (b % 16) (by omega)]
              rfl]
            show Option.map _ (parseStrBody fuel (escBytes s ++ 34 :: rest)) = _
            rw [ih fuel rest hfuel]
            have hbv : b / 16 * 16 + b % 16 = b := by omega
            simp [hbv]
          · rw [show escByte b = [b] from by
              rw [escByte, if_neg h34, if_neg h92, if_neg hc]]
            simp only [List.cons_append, List.nil_append]
            rw [parseStrBody, if_neg h34, if_neg h92]
            rw [ih fuel rest hfuel]
            rfl

theorem expectBytes_append (p : List Nat) : ∀ r, expectBytes p (p ++ r) = some r := by
  induction p with
  | nil => intro r; rfl
  | cons a p ih =>
    intro r
    simp only [List.cons_append]
    rw [expectBytes, if_pos rfl]
    exact ih r

/-- The first byte of any serialized JSON value, with the disambiguation
facts the parser needs. -/
theorem serJson_head (j : Json) : ∃ b t, serJson j = b :: t ∧
    b ≠ 44 ∧ b ≠ 58 ∧ b ≠ 93 ∧ b ≠ 125 := by
  cases j with
  | null => exact ⟨110, _, rfl, by omega, by omega, by omega, by omega⟩
  | bool b =>
    cases b with
    | true => exact ⟨116, _, rfl, by omega, by omega, by omega, by omega⟩
    | false => exact ⟨102, _, rfl, by omega, by omega, by omega, by omega⟩
  | num n =>
    by_cases hn : n < 0
    · refine ⟨45, natBytes n.natAbs, ?_, by omega, by omega, by omega, by omega⟩
      rw [show serJson (Json.num n) = intBytes n from rfl, intBytes, if_pos hn]
    · obtain ⟨d, t, hdt⟩ : ∃ d t, natBytes n.toNat = d :: t := by
        cases h : natBytes n.toNat with
        | nil => exact absurd h (natBytes_ne_nil _)
        | cons d t => exact ⟨d, t, rfl⟩
      have hd := natBytes_digits n.toNat d (by rw [hdt]; simp)
      refine ⟨d, t, ?_, by omega, by omega, by omega, by omega⟩
      rw [show serJson (Json.num n) = intBytes n from rfl, intBytes, if_neg hn, hdt]
  | str s => exact ⟨34, _, rfl, by omega, by omega, by omega, by omega⟩
  | arr es =>
    cases es with
    | nil => exact ⟨91, _, rfl, by omega, by omega, by omega, by omega⟩
    | cons j tail => exact ⟨91, _, rfl, by omega, by omega, by omega, by omega⟩
  | obj ms =>
    cases ms with
    | nil => exact ⟨123, _, rfl, by omega, by omega, by omega, by omega⟩
    | cons k v tail => exact ⟨123, _, rfl, by omega, by omega, by omega, by omega⟩

/-- A nonempty array tail serializes to its first element's bytes followed
by a tail that starts with a comma or closes the context. -/
theorem serArr_cons (j : Json) (tail : JArr) : ∃ t, serArr (JArr.cons j tail) = serJson j ++ t ∧
    (t = [] ∨ ∃ t', t = 44 :: t') := by
  cases tail with
  | nil => exact ⟨[], by simp [serArr], Or.inl rfl⟩
  | cons j2 t2 => exact ⟨44 :: serArr (JArr.cons j2 t2), by simp [serArr], Or.inr ⟨_, rfl⟩⟩

theorem serObj_cons (k : List Nat) (v : Json) (tail : JObj) :
    ∃ t, serObj (JObj.cons k v tail) = serStr k ++ 58 :: serJson v ++ t ∧
      (t = [] ∨ ∃ t', t = 44 :: t') := by
  cases tail with
  | nil => exact ⟨[], by simp [serObj], Or.inl rfl⟩
  | cons k2 v2 t2 =>
    exact ⟨44 :: serObj (JObj.cons k2 v2 t2), by simp [serObj], Or.inr ⟨_, rfl⟩⟩

theorem nonDigitHead_cons (b : Nat) (l : List Nat) (h : ¬(48 ≤ b ∧ b ≤ 57)) :
    nonDigitHead (b :: l) := h

/-- Parsing inverts serialization: with enough fuel, a serialized value
followed by any safe remainder parses back to exactly that value. -/
theorem parse_serialize (fuel : Nat) :
    (∀ j rest, jsonFuel j ≤ fuel → nonDigitHead rest →
      parseJson fuel (serJson j ++ rest) = some (j, rest)) ∧
    (∀ es rest, es ≠ JArr.nil → arrFuel es ≤ fuel →
      parseElems fuel (serArr es ++ 93 :: rest) = some (es, rest)) ∧
    (∀ ms rest, ms ≠ JObj.nil → objFuel ms ≤ fuel →
      parseMembers fuel (serObj ms ++ 125 :: rest) = some (ms, rest)) := by
  induction fuel with
  | zero =>
    refine ⟨fun j rest hfuel _ => ?_, fun es rest hne hfuel => ?_, fun ms rest hne hfuel => ?_⟩
    · cases j <;> first
        | (exfalso; revert hfuel; decide)
        | (exfalso
           rename_i x
           cases x <;> revert hfuel <;> simp [jsonFuel])
    · cases es with
      | nil => exact absurd rfl hne
      | cons j t => rw [arrFuel] at hfuel; omega
    · cases ms with
      | nil => exact absurd rfl hne
      | cons k v t => rw [objFuel] at hfuel; omega
  | succ fuel ih =>
    obtain ⟨IHj, IHe, IHm⟩ := ih
    refine ⟨fun j rest hfuel hrest => ?_, fun es rest hne hfuel => ?_,
      fun ms rest hne hfuel => ?_⟩
    · cases j with
      | null =>
        simp only [show serJson Json.null = [110, 117, 108, 108] from rfl,
          List.cons_append, List.nil_append]
        rw [parseJson, if_neg (by decide), if_neg (by decide), if_pos rfl]
        rw [show (117 :: 108 :: 108 :: rest : List Nat) = [117, 108, 108] ++ rest from rfl,
          expectBytes_append]
        rfl
      | bool tf =>
        cases tf with
        | true =>
          simp only [show serJson (Json.bool true) = [116, 114, 117, 101] from rfl,
            List.cons_append, List.nil_append]
          rw [parseJson, if_neg (by decide), if_neg (by decide), if_neg (by decide),
            if_pos rfl]
          rw [show (114 :: 117 :: 101 :: rest : List Nat) = [114, 117, 101] ++ rest from rfl,
            expectBytes_append]
          rfl
        | false =>
          simp only [show serJson (Json.bool false) = [102, 97, 108, 115, 101] from rfl,
            List.cons_append, List.nil_append]
          rw [parseJson, if_neg (by decide), if_neg (by decide), if_neg (by decide),
            if_neg (by decide), if_pos rfl]
          rw [show (97 :: 108 :: 115 :: 101 :: rest : List Nat) = [97, 108, 115, 101] ++ rest
              from rfl, expectBytes_append]
          rfl
      | num n =>
        rw [show serJson (Json.num n) = intBytes n from rfl]
        by_cases hn : n < 0
        · rw [show intBytes n = 45 :: natBytes n.natAbs from by rw [intBytes, if_pos hn]]
          simp only [List.cons_append]
          rw [parseJson, if_neg (by decide), if_pos rfl]
          rw [parseNat_natBytes _ rest hrest]
          simp only [Option.map_some']
          rw [show (-(n.natAbs : Int)) = n from by omega]
        · rw [show intBytes n = natBytes n.toNat from by rw [intBytes, if_neg hn]]
          obtain ⟨d, t, hdt⟩ : ∃ d t, natBytes n.toNat = d :: t := by
            cases h : natBytes n.toNat with
            | nil => exact absurd h (natBytes_ne_nil _)
            | cons d t => exact ⟨d, t, rfl⟩
          have hd := natBytes_digits n.toNat d (by rw [hdt]; simp)
          rw [hdt]
          simp only [List.cons_append]
          rw [parseJson, if_pos hd]
          rw [show d :: (t ++ rest) = (d :: t) ++ rest from rfl, ← hdt,
            parseNat_natBytes _ rest hrest]
          simp only [Option.map_some']
          rw [show ((n.toNat : Nat) : Int) = n from by omega]
      | str s =>
        rw [show serJson (Json.str s) = 34 :: (escBytes s ++ [34]) from rfl]
        simp only [List.cons_append, List.append_assoc, List.nil_append]
        rw [parseJson, if_neg (by decide), if_neg (by decide), if_neg (by decide),
          if_neg (by decide), if_neg (by decide), if_pos rfl]
        rw [parseStrBody_escBytes s _ rest (by simp [List.length_append])]
        rfl
      | arr es =>
        cases es with
        | nil =>
          simp only [show serJson (Json.arr JArr.nil) = [91, 93] from rfl,
            List.cons_append, List.nil_append]
          rw [parseJson, if_neg (by decide), if_neg (by decide), if_neg (by decide),
            if_neg (by decide), if_neg (by decide), if_neg (by decide), if_pos rfl]
          simp only [List.head?_cons, List.tail_cons, reduceIte]
        | cons j tail =>
          rw [show serJson (Json.arr (JArr.cons j tail)) =
              91 :: (serArr (JArr.cons j tail) ++ [93]) from rfl]
          simp only [List.cons_append, List.append_assoc, List.nil_append]
          rw [parseJson, if_neg (by decide), if_neg (by decide), if_neg (by decide),
            if_neg (by decide), if_neg (by decide), if_neg (by decide), if_pos rfl]
          obtain ⟨t, hser, _⟩ := serArr_cons j tail
          obtain ⟨b, bt, hbbt, h44, h58, h93, h125⟩ := serJson_head j
          rw [if_neg (show ¬((serArr (JArr.cons j tail) ++ 93 :: rest).head? = some 93) from by
            rw [hser, hbbt]
            simp only [List.cons_append, List.append_assoc, List.head?_cons,
              Option.some.injEq]
            exact h93)]
          have hb : arrFuel (JArr.cons j tail) ≤ fuel := by
            have h1 : jsonFuel (Json.arr (JArr.cons j tail)) =
                1 + arrFuel (JArr.cons j tail) := rfl
            omega
          rw [IHe (JArr.cons j tail) rest (by intro h; cases h) hb]
          rfl
      | obj ms =>
        cases ms with
        | nil =>
          simp only [show serJson (Json.obj JObj.nil) = [123, 125] from rfl,
            List.cons_append, List.nil_append]
          rw [parseJson, if_neg (by decide), if_neg (by decide), if_neg (by decide),
            if_neg (by decide), if_neg (by decide), if_neg (by decide), if_neg (by decide),
            if_pos rfl]
          simp only [List.head?_cons, List.tail_cons, reduceIte]
        | cons k v tail =>
          rw [show serJson (Json.obj (JObj.cons k v tail)) =
              123 :: (serObj (JObj.cons k v tail) ++ [125]) from rfl]
          simp only [List.cons_append, List.append_assoc, List.nil_append]
          rw [parseJson, if_neg (by decide), if_neg (by decide), if_neg (by decide),
            if_neg (by decide), if_neg (by decide), if_neg (by decide), if_neg (by decide),
            if_pos rfl]
          obtain ⟨t, hser, _⟩ := serObj_cons k v tail
          rw [if_neg (show ¬((serObj (JObj.cons k v tail) ++ 125 :: rest).head? = some 125)
              from by
            rw [hser, show serStr k = 34 :: (escBytes k ++ [34]) from rfl]
            simp)]
          have hb : objFuel (JObj.cons k v tail) ≤ fuel := by
            have h1 : jsonFuel (Json.obj (JObj.cons k v tail)) =
                1 + objFuel (JObj.cons k v tail) := rfl
            omega
          rw [IHm (JObj.cons k v tail) rest (by intro h; cases h) hb]
          rfl
    · cases es with
      | nil => exact absurd rfl hne
      | cons j tail =>
        have hmax : 1 + max (jsonFuel j) (arrFuel tail) ≤ fuel + 1 := hfuel
        have hj : jsonFuel j ≤ fuel := by
          have := le_max_left (jsonFuel j) (arrFuel tail); omega
        have ht : arrFuel tail ≤ fuel := by
          have := le_max_right (jsonFuel j) (arrFuel tail); omega
        cases tail with
        | nil =>
          rw [show serArr (JArr.cons j JArr.nil) = serJson j from rfl]
          rw [parseElems, IHj j (93 :: rest) hj (nonDigitHead_cons _ _ (by omega))]
          simp only [Option.some_bind]
          simp only [List.head?_cons, List.tail_cons, reduceIte]
          rw [if_neg (by decide)]
        | cons j2 t2 =>
          rw [show serArr (JArr.cons j (JArr.cons j2 t2)) =
              serJson j ++ 44 :: serArr (JArr.cons j2 t2) from rfl]
          simp only [List.append_assoc, List.cons_append]
          rw [parseElems, IHj j _ hj (nonDigitHead_cons _ _ (by omega))]
          simp only [Option.some_bind]
          simp only [List.head?_cons, List.tail_cons, reduceIte]
          rw [IHe (JArr.cons j2 t2) rest (by intro h; cases h) ht]
          rfl
    · cases ms with
      | nil => exact absurd rfl hne
      | cons k v tail =>
        have hmax : 1 + max (jsonFuel v) (objFuel tail) ≤ fuel + 1 := hfuel
        have hv : jsonFuel v ≤ fuel := by
          have := le_max_left (jsonFuel v) (objFuel tail); omega
        have ht : objFuel tail ≤ fuel := by
          have := le_max_right (jsonFuel v) (objFuel tail); omega
        cases tail with
        | nil =>
          rw [show serObj (JObj.cons k v JObj.nil) = serStr k ++ 58 :: serJson v from rfl]
          rw [show serStr k = 34 :: (escBytes k ++ [34]) from rfl]
          simp only [List.append_assoc, List.cons_append, List.nil_append]
          rw [parseMembers]
          simp only [List.head?_cons, List.tail_cons, reduceIte]
          rw [parseStrBody_escBytes k _ _ (by simp [List.length_append])]
          simp only [Option.some_bind]
          simp only [List.head?_cons, List.tail_cons, reduceIte]
          rw [IHj v (125 :: rest) hv (nonDigitHead_cons _ _ (by omega))]
          simp only [Option.some_bind]
          simp only [List.head?_cons, List.tail_cons, reduceIte]
          rw [if_neg (by decide)]
        | cons k2 v2 t2 =>
          rw [show serObj (JObj.cons k v (JObj.cons k2 v2 t2)) =
              serStr k ++ 58 :: serJson v ++ 44 :: serObj (JObj.cons k2 v2 t2) from rfl]
          rw [show serStr k = 34 :: (escBytes k ++ [34]) from rfl]
          simp only [List.append_assoc, List.cons_append, List.nil_append]
          rw [parseMembers]
          simp only [List.head?_cons, List.tail_cons, reduceIte]
          rw [parseStrBody_escBytes k _ _ (by simp [List.length_append])]
          simp only [Option.some_bind]
          simp only [List.head?_cons, List.tail_cons, reduceIte]
          rw [IHj v _ hv (nonDigitHead_cons _ _ (by omega))]
          simp only [Option.some_bind]
          simp only [List.head?_cons, List.tail_cons, reduceIte]
          rw [IHm (JObj.cons k2 v2 t2) rest (by intro h; cases h) ht]
          rfl

/-! ## Fuel is covered by serialized length -/

theorem serJson_length_pos (j : Json) : 1 ≤ (serJson j).length := by
  obtain ⟨b, t, hbt, -⟩ := serJson_head j
  rw [hbt]
  simp

mutual
theorem jsonFuel_le_length (j : Json) : jsonFuel j ≤ (serJson j).length := by
  cases j with
  | null => decide
  | bool tf => cases tf <;> decide
  | num n =>
    have h : jsonFuel (Json.num n) = 1 := rfl
    rw [h]
    exact serJson_length_pos (Json.num n)
  | str s =>
    have h : jsonFuel (Json.str s) = 1 := rfl
    rw [h]
    exact serJson_length_pos (Json.str s)
  | arr es =>
    cases es with
    | nil => decide
    | cons j2 t2 =>
      have h1 : jsonFuel (Json.arr (JArr.cons j2 t2)) = 1 + arrFuel (JArr.cons j2 t2) := rfl
      have h2 : serJson (Json.arr (JArr.cons j2 t2)) =
          91 :: (serArr (JArr.cons j2 t2) ++ [93]) := rfl
      have h3 := arrFuel_le_length (JArr.cons j2 t2)
      rw [h1, h2]
      simp only [List.length_cons, List.length_append, List.length_singleton]
      omega
  | obj ms =>
    cases ms with
    | nil => decide
    | cons k v t2 =>
      have h1 : jsonFuel (Json.obj (JObj.cons k v t2)) = 1 + objFuel (JObj.cons k v t2) := rfl
      have h2 : serJson (Json.obj (JObj.cons k v t2)) =
          123 :: (serObj (JObj.cons k v t2) ++ [125]) := rfl
      have h3 := objFuel_le_length (JObj.cons k v t2)
      rw [h1, h2]
      simp only [List.length_cons, List.length_append, List.length_singleton]
      omega
theorem arrFuel_le_length (es : JArr) : arrFuel es ≤ 1 + (serArr es).length := by
  cases es with
  | nil => decide
  | cons j tail =>
    have h1 : arrFuel (JArr.cons j tail) = 1 + max (jsonFuel j) (arrFuel tail) := rfl
    have h2 := jsonFuel_le_length j
    rw [h1]
    cases tail with
    | nil =>
      have h3 : serArr (JArr.cons j JArr.nil) = serJson j := rfl
      have h4 : arrFuel JArr.nil = 0 := rfl
      rw [h3, h4]
      have := Nat.max_le.mpr ⟨h2, Nat.zero_le _⟩
      omega
    | cons j2 t2 =>
      have h3 : serArr (JArr.cons j (JArr.cons j2 t2)) =
          serJson j ++ 44 :: serArr (JArr.cons j2 t2) := rfl
      have h5 := arrFuel_le_length (JArr.cons j2 t2)
      have h6 := serJson_length_pos j
      rw [h3]
      simp only [List.length_append, List.length_cons]
      have hm : max (jsonFuel j) (arrFuel (JArr.cons j2 t2)) ≤
          (serJson j).length + (1 + (serArr (JArr.cons j2 t2)).length) :=
        Nat.max_le.mpr ⟨by omega, by omega⟩
      omega
theorem objFuel_le_length (ms : JObj) : objFuel ms ≤ 1 + (serObj ms).length := by
  cases ms with
  | nil => decide
  | cons k v tail =>
    have h1 : objFuel (JObj.cons k v tail) = 1 + max (jsonFuel v) (objFuel tail) := rfl
    have h2 := jsonFuel_le_length v
    rw [h1]
    cases tail with
    | nil =>
      have h3 : serObj (JObj.cons k v JObj.nil) = serStr k ++ 58 :: serJson v := rfl
      have h4 : objFuel JObj.nil = 0 := rfl
      rw [h3, h4]
      simp only [List.length_append, List.length_cons]
      have hm : max (jsonFuel v) 0 ≤ jsonFuel v := Nat.max_le.mpr ⟨le_refl _, Nat.zero_le _⟩
      omega
    | cons k2 v2 t2 =>
      have h3 : serObj (JObj.cons k v (JObj.cons k2 v2 t2)) =
          serStr k ++ 58 :: serJson v ++ 44 :: serObj (JObj.cons k2 v2 t2) := rfl
      have h5 := objFuel_le_length (JObj.cons k2 v2 t2)
      rw [h3]
      simp only [List.length_append, List.length_cons]
      have hm : max (jsonFuel v) (objFuel (JObj.cons k2 v2 t2)) ≤
          (serJson v).length + (1 + (serObj (JObj.cons k2 v2 t2)).length) :=
        Nat.max_le.mpr ⟨by omega, by omega⟩
      omega
end

/-! ## FrameCodec

Modelled from the spec: `encode(payload)` prefixes the UTF-8 JSON body with
a header line `Content-Length: <N>` followed by the blank-line separator
(`\r\n\r\n`), where N is the exact byte length of the JSON body; the stream
decoder is a continuous scanner that must tolerate a frame's body arriving
split across several reads.  The `codeqlclient` module that implements this
is not part of the provided sources, so the codec is modelled from the
spec's wire-format description. -/

/-- The bytes of the header prefix, `Content-Length: `. -/
def clPrefixBytes : List Nat := strBytes "Content-Length: "

/-- Encode a payload into one wire frame. -/
def encode (payload : Json) : List Nat :=
  clPrefixBytes ++ (natBytes (serJson payload).length ++
    (13 :: 10 :: 13 :: 10 :: serJson payload))

/-- Parse a `Content-Length` header line, returning the declared length. -/
def parseContentLength (hdr : List Nat) : Option Nat :=
  if hdr.take 16 = clPrefixBytes then
    if hdr.drop 16 ≠ [] ∧ ∀ b ∈ hdr.drop 16, 48 ≤ b ∧ b ≤ 57 then
      some (digitsVal (hdr.drop 16))
    else none
  else none

/-- Split the buffer at the first `\r\n\r\n` separator, if fully present. -/
def findSep : List Nat → Option (List Nat × List Nat)
  | [] => none
  | b :: rest =>
    if b = 13 ∧ rest.take 3 = [10, 13, 10] then some ([], rest.drop 3)
    else (findSep rest).map (fun p => (b :: p.1, p.2))

/-- Extract as many complete frames as the buffer holds; returns the decoded
payloads and the unconsumed remainder.  A frame whose body fails to decode
as JSON is dropped and decoding resumes at the next frame boundary. -/
def extractLoop : Nat → List Nat → List Json × List Nat
  | 0, buf => ([], buf)
  | fuel+1, buf =>
    (findSep buf).elim ([], buf) (fun pr =>
      (parseContentLength pr.1).elim ([], buf) (fun n =>
        if n ≤ pr.2.length then
          (parseJson n (pr.2.take n)).elim (extractLoop fuel (pr.2.drop n)) (fun jr =>
            if jr.2 = [] then
              ((extractLoop fuel (pr.2.drop n)).1.cons jr.1,
                (extractLoop fuel (pr.2.drop n)).2)
            else extractLoop fuel (pr.2.drop n))
        else ([], buf)))

/-- State of the incremental stream decoder: buffered bytes not yet forming
a complete frame, and payloads decoded so far. -/
structure DecodeState where
  buffer : List Nat
  outputs : List Json
deriving DecidableEq

/-- Fresh decoder state. -/
def initialDecodeState : DecodeState := ⟨[], []⟩

/-- Feed one read fragment to the decoder. -/
def feedChunk (st : DecodeState) (chunk : List Nat) : DecodeState :=
  ⟨(extractLoop ((st.buffer ++ chunk).length + 1) (st.buffer ++ chunk)).2,
    st.outputs ++ (extractLoop ((st.buffer ++ chunk).length + 1) (st.buffer ++ chunk)).1⟩

/-- Feed a whole sequence of read fragments. -/
def feedChunks (st : DecodeState) (chunks : List (List Nat)) : DecodeState :=
  chunks.foldl feedChunk st

theorem clPrefixBytes_eq : clPrefixBytes =
    [67, 111, 110, 116, 101, 110, 116, 45, 76, 101, 110, 103, 116, 104, 58, 32] := by
  decide

theorem parseContentLength_round (n : Nat) :
    parseContentLength (clPrefixBytes ++ natBytes n) = some n := by
  have hlen : clPrefixBytes.length = 16 := by decide
  unfold parseContentLength
  rw [show (clPrefixBytes ++ natBytes n).take 16 = clPrefixBytes from by
    rw [← hlen]; exact List.take_left clPrefixBytes (natBytes n)]
  rw [if_pos rfl]
  rw [show (clPrefixBytes ++ natBytes n).drop 16 = natBytes n from by
    rw [← hlen]; exact List.drop_left clPrefixBytes (natBytes n)]
  rw [if_pos ⟨natBytes_ne_nil n, natBytes_digits n⟩]
  rw [digitsVal_natBytes]

theorem findSep_short (t : List Nat) (ht : t.length ≤ 3) : findSep t = none := by
  match t, ht with
  | [], _ => rfl
  | [a], _ => simp [findSep, List.take]
  | [a, b], _ => simp [findSep, List.take]
  | [a, b, c], _ => simp [findSep, List.take]

theorem findSep_none (A t : List Nat) (hA : (13 : Nat) ∉ A) (ht : t.length ≤ 3) :
    findSep (A ++ t) = none := by
  induction A with
  | nil => simpa using findSep_short t ht
  | cons a A ih =>
    have ha : a ≠ 13 := fun h => hA (by simp [h])
    simp only [List.cons_append]
    rw [findSep, if_neg (by simp [ha])]
    rw [ih (fun h => hA (by simp [h]))]
    rfl

theorem findSep_append (A B : List Nat) (hA : (13 : Nat) ∉ A) :
    findSep (A ++ 13 :: 10 :: 13 :: 10 :: B) = some (A, B) := by
  induction A with
  | nil =>
    simp only [List.nil_append]
    rw [findSep, if_pos ⟨rfl, rfl⟩]
    rfl
  | cons a A ih =>
    have ha : a ≠ 13 := fun h => hA (by simp [h])
    simp only [List.cons_append]
    rw [findSep, if_neg (by simp [ha])]
    rw [ih (fun h => hA (by simp [h]))]
    rfl

theorem extractLoop_of_findSep_none (fuel : Nat) (buf : List Nat)
    (h : findSep buf = none) : extractLoop fuel buf = ([], buf) := by
  cases fuel with
  | zero => rfl
  | succ fuel =>
    rw [extractLoop, h]
    rfl

theorem extractLoop_incomplete (fuel : Nat) (buf hdr rest : List Nat) (n : Nat)
    (h1 : findSep buf = some (hdr, rest)) (h2 : parseContentLength hdr = some n)
    (h3 : rest.length < n) : extractLoop fuel buf = ([], buf) := by
  cases fuel with
  | zero => rfl
  | succ fuel =>
    rw [extractLoop, h1]
    simp only [Option.elim_some]
    rw [h2]
    simp only [Option.elim_some]
    rw [if_neg (by omega)]

theorem not_mem_header (n : Nat) : (13 : Nat) ∉ clPrefixBytes ++ natBytes n := by
  intro h
  rcases List.mem_append.mp h with h | h
  · rw [clPrefixBytes_eq] at h
    simp at h
  · have := natBytes_digits n 13 h
    omega

theorem encode_eq (p : Json) : encode p =
    (clPrefixBytes ++ natBytes (serJson p).length) ++
      13 :: 10 :: 13 :: 10 :: serJson p := by
  unfold encode
  rw [List.append_assoc]

theorem extractLoop_encode (fuel : Nat) (p : Json) (hf : 1 ≤ fuel) :
    extractLoop fuel (encode p) = ([p], []) := by
  match fuel, hf with
  | fuel + 1, _ =>
    rw [encode_eq, extractLoop]
    rw [findSep_append _ _ (not_mem_header _)]
    simp only [Option.elim_some]
    rw [parseContentLength_round]
    simp only [Option.elim_some]
    rw [if_pos (le_refl _)]
    rw [List.take_length, List.drop_length]
    have hp : parseJson (serJson p).length (serJson p) = some (p, []) := by
      have := (parse_serialize (serJson p).length).1 p [] (jsonFuel_le_length p) trivial
      simpa using this
    rw [hp]
    simp only [Option.elim_some]
    rw [if_true]
    rw [extractLoop_of_findSep_none fuel [] rfl]

theorem extractLoop_stall_trunc (p : Json) (k fuel : Nat) (hk : k < (encode p).length) :
    extractLoop fuel ((encode p).take k) = ([], (encode p).take k) := by
  set H := clPrefixBytes ++ natBytes (serJson p).length with hH
  set B := serJson p with hB
  have eqE : encode p = (H ++ [13, 10, 13, 10]) ++ B := by
    simp only [hH, hB, encode, List.append_assoc, List.cons_append, List.nil_append]
  have lenE1 : (H ++ [13, 10, 13, 10]).length = H.length + 4 := by simp
  by_cases hcase : k ≤ H.length + 3
  · have htake : (encode p).take k = H.take k ++ [13, 10, 13, 10].take (k - H.length) := by
      rw [eqE, List.take_append_eq_append_take, List.take_append_eq_append_take]
      have : k - (H ++ [13, 10, 13, 10]).length = 0 := by omega
      rw [this]
      simp
    rw [htake]
    apply extractLoop_of_findSep_none
    apply findSep_none
    · intro hmem
      exact not_mem_header _ (List.take_subset k H hmem)
    · have := List.length_take (k - H.length) ([13, 10, 13, 10] : List Nat)
      simp only [List.length_cons, List.length_nil] at this
      omega
  · have hlen : (encode p).length = H.length + 4 + B.length := by
      rw [eqE]
      simp only [List.length_append, List.length_cons, List.length_nil]
    have hk4 : H.length + 4 ≤ k := by omega
    have htake : (encode p).take k = (H ++ [13, 10, 13, 10]) ++ B.take (k - (H.length + 4)) := by
      rw [eqE, List.take_append_eq_append_take]
      rw [List.take_of_length_le (by omega)]
      rw [lenE1]
    have hlenB' : (B.take (k - (H.length + 4))).length = k - (H.length + 4) := by
      rw [List.length_take]
      omega
    rw [htake]
    apply extractLoop_incomplete _ _ H (B.take (k - (H.length + 4))) B.length
    · rw [List.append_assoc]
      exact findSep_append _ _ (not_mem_header _)
    · exact parseContentLength_round _
    · omega

theorem feedChunk_eq (A : List Nat) (out : List Json) (c : List Nat) :
    feedChunk ⟨A, out⟩ c =
      ⟨(extractLoop ((A ++ c).length + 1) (A ++ c)).2,
        out ++ (extractLoop ((A ++ c).length + 1) (A ++ c)).1⟩ := rfl

theorem feedChunks_empty (cs : List (List Nat)) (out : List Json) (hjoin : cs.flatten = []) :
    feedChunks ⟨[], out⟩ cs = ⟨[], out⟩ := by
  induction cs with
  | nil => rfl
  | cons c cs ih =>
    rw [List.flatten_cons] at hjoin
    have hc : c = [] := by
      have := congrArg List.length hjoin
      simp only [List.length_append, List.length_nil] at this
      exact List.length_eq_zero.mp (by omega)
    have hcs : cs.flatten = [] := by
      have := congrArg List.length hjoin
      simp only [List.length_append, List.length_nil] at this
      exact List.length_eq_zero.mp (by omega)
    show feedChunks (feedChunk ⟨[], out⟩ c) cs = ⟨[], out⟩
    rw [show feedChunk ⟨[], out⟩ c = ⟨[], out⟩ from by
      rw [hc, feedChunk_eq]
      rw [show (([] : List Nat) ++ []) = [] from rfl]
      rw [extractLoop_of_findSep_none _ [] rfl]
      simp]
    exact ih hcs

theorem feedChunks_take (p : Json) : ∀ (chunks : List (List Nat)) (k : Nat),
    k < (encode p).length →
    (encode p).take k ++ chunks.flatten = encode p →
    feedChunks ⟨(encode p).take k, []⟩ chunks = ⟨[], [p]⟩ := by
  intro chunks
  induction chunks with
  | nil =>
    intro k hk hjoin
    exfalso
    rw [List.flatten_nil, List.append_nil] at hjoin
    have := congrArg List.length hjoin
    rw [List.length_take] at this
    omega
  | cons c cs ih =>
    intro k hk hjoin
    rw [List.flatten_cons, ← List.append_assoc] at hjoin
    have hlens : k + c.length + cs.flatten.length = (encode p).length := by
      have := congrArg List.length hjoin
      simp only [List.length_append, List.length_take] at this
      omega
    have h1 : ((encode p).take k ++ c).length = k + c.length := by
      simp only [List.length_append, List.length_take]
      omega
    have hbc : (encode p).take k ++ c = (encode p).take (k + c.length) := by
      conv_rhs => rw [← hjoin]
      rw [List.take_append_eq_append_take, List.take_of_length_le (le_of_eq h1), h1,
        Nat.sub_self, List.take_zero, List.append_nil]
    show feedChunks (feedChunk ⟨(encode p).take k, []⟩ c) cs = ⟨[], [p]⟩
    rw [feedChunk_eq, hbc]
    by_cases hfull : k + c.length < (encode p).length
    · rw [extractLoop_stall_trunc p (k + c.length) _ hfull]
      show feedChunks ⟨(encode p).take (k + c.length), []⟩ cs = ⟨[], [p]⟩
      apply ih (k + c.length) hfull
      rw [← hbc]
      exact hjoin
    · have hke : k + c.length = (encode p).length := by omega
      have hjcs : cs.flatten = [] := by
        have : cs.flatten.length = 0 := by omega
        exact List.length_eq_zero.mp this
      rw [hke, List.take_length]
      rw [extractLoop_encode _ p (by omega)]
      show feedChunks ⟨[], [p]⟩ cs = ⟨[], [p]⟩
      exact feedChunks_empty cs [p] hjcs

/-- C1: for every JSON payload, decoding the frame produced by the frame
encoder yields the original payload, even when the encoded frame is
delivered to the decoder split across arbitrarily many read fragments; and
`encode` prefixes the JSON body with a `Content-Length: <N>` header line
(terminated by the `\r\n\r\n` separator) whose N is the exact byte length
of the body. -/
theorem frameCodec_roundtrip_c1 :
    (∀ (payload : Json) (chunks : List (List Nat)),
      chunks.flatten = encode payload →
      feedChunks initialDecodeState chunks = ⟨[], [payload]⟩) ∧
    (∀ payload : Json,
      encode payload = (clPrefixBytes ++ natBytes (serJson payload).length) ++
          13 :: 10 :: 13 :: 10 :: serJson payload ∧
      parseContentLength (clPrefixBytes ++ natBytes (serJson payload).length) =
        some (serJson payload).length) := by
  constructor
  · intro payload chunks hjoin
    have h0 : 0 < (encode payload).length := by
      rw [encode_eq]
      simp
    exact feedChunks_take payload chunks 0 h0 hjoin
  · intro payload
    exact ⟨encode_eq payload, parseContentLength_round _⟩

/-- Concrete check of C1: the frame for the payload `{"id":1}` is decoded
back to it even when delivered in four fragments that split both the header
separator and the body. -/
theorem frameCodec_roundtrip_c1_witness :
    ([[67, 111, 110, 116, 101, 110, 116, 45, 76, 101, 110, 103, 116, 104, 58, 32, 56, 13, 10],
      [13, 10], [123, 34, 105, 100, 34], [58, 49, 125]].flatten =
        encode (Json.obj (JObj.cons (strBytes "id") (Json.num 1) JObj.nil))) ∧
    feedChunks initialDecodeState
      [[67, 111, 110, 116, 101, 110, 116, 45, 76, 101, 110, 103, 116, 104, 58, 32, 56, 13, 10],
        [13, 10], [123, 34, 105, 100, 34], [58, 49, 125]] =
      ⟨[], [Json.obj (JObj.cons (strBytes "id") (Json.num 1) JObj.nil)]⟩ :=
  ⟨by decide, frameCodec_roundtrip_c1.1 _ _ (by decide)⟩

/-! ## The query-server protocol client

Modelled from the spec: the `CodeQLQueryServer` class of the repository's
`codeqlclient` module is not among the provided sources (only its tests and
callers are), so its state and message handling are modelled from the
spec's component contracts (RequestRegistry, ProgressDispatcher,
ProcessChannel, QueryServerClient).  Callback invocation is modelled as
data: handling a message returns the list of effects (callback invocations,
diagnostics, frame writes) the client performs. -/

/-- Field keys and method names used on the wire. -/
def keyMethod : List Nat := strBytes "method"

def keyParams : List Nat := strBytes "params"

def keyId : List Nat := strBytes "id"

def keyResult : List Nat := strBytes "result"

def keyError : List Nat := strBytes "error"

def keyProgressId : List Nat := strBytes "progressId"

def keyMessage : List Nat := strBytes "message"

def keyStep : List Nat := strBytes "step"

def keyMaxStep : List Nat := strBytes "maxStep"

def methodProgressUpdated : List Nat := strBytes "ql/progressUpdated"

def methodEvaluationProgress : List Nat := strBytes "evaluation/progress"

/-- Look up a key in a JSON object's member list. -/
def lookupObj : JObj → List Nat → Option Json
  | .nil, _ => none
  | .cons k v rest, key => if k = key then some v else lookupObj rest key

/-- Field access on a JSON value (`none` on non-objects, like a failed
dictionary lookup). -/
def getField : Json → List Nat → Option Json
  | .obj ms, key => lookupObj ms key
  | _, _ => none

/-- Read a JSON value as a nonnegative integer id. -/
def asNat : Json → Option Nat
  | .num n => if 0 ≤ n then some n.toNat else none
  | _ => none

/-- Association-list lookup (models a Python dict keyed by integer id). -/
def lookupA : List (Nat × Nat) → Nat → Option Nat
  | [], _ => none
  | (k, v) :: rest, key => if k = key then some v else lookupA rest key

/-- Remove a key from an association list. -/
def removeA (m : List (Nat × Nat)) (k : Nat) : List (Nat × Nat) :=
  m.filter (fun kv => kv.1 != k)

/-- Insert-or-replace in an association list. -/
def insertA (m : List (Nat × Nat)) (k v : Nat) : List (Nat × Nat) :=
  (k, v) :: removeA m k

/-- Client state: `codeql_path`, the subprocess handle (`proc`), the
pending-request registry, the progress-callback registry, the running flag
and the id counter, as exposed by `CodeQLQueryServer.__init__`.  Callbacks
are identified by abstract tokens (`Nat`). -/
structure ClientState where
  codeql_path : String
  proc : Option Unit
  pending : List (Nat × Nat)
  progress_callbacks : List (Nat × Nat)
  running : Bool
  id_counter : Nat
deriving DecidableEq

/-- A freshly constructed client. -/
def initClient (path : String) : ClientState := ⟨path, none, [], [], true, 1⟩

/-- Argument passed to a completion callback: the response's result, or its
error representation. -/
inductive CompArg where
  | ok (result : Json)
  | err (error : Json)
deriving DecidableEq

/-- Observable side effects of the client. -/
inductive Effect where
  | invokeProgress (cb : Nat) (arg : Json)
  | invokeCompletion (cb : Nat) (arg : CompArg)
  | printErrorResponse (error : Json)
  | printDiag (msg : String)
  | writeFrame (bytes : List Nat)
deriving DecidableEq

/-- Model of `_send`: write one encoded frame to the subprocess's stdin; if the
process is not running this is a no-op that only prints a diagnostic. -/
def send (st : ClientState) (payload : Json) : ClientState × List Effect :=
  match st.proc with
  | none => (st, [.printDiag "Tried to send but process not running"])
  | some _ => (st, [.writeFrame (encode payload)])

/-- Handling of an inbound message that carries a `method` field: the two
recognized progress notification shapes.  Notifications whose correlation
id matches no registered callback are dropped silently. -/
def handle_progress (st : ClientState) (mv : Json) (msg : Json) : ClientState × List Effect :=
  if mv = Json.str methodProgressUpdated then
    (getField msg keyParams).elim (st, []) (fun params =>
      ((getField params keyId).bind asNat).elim (st, []) (fun pid =>
        (lookupA st.progress_callbacks pid).elim (st, []) (fun cb =>
          (st, [.invokeProgress cb params]))))
  else if mv = Json.str methodEvaluationProgress then
    (getField msg keyParams).elim (st, []) (fun params =>
      ((getField params keyProgressId).bind asNat).elim (st, []) (fun pid =>
        (lookupA st.progress_callbacks pid).elim (st, []) (fun cb =>
          (getField params keyMessage).elim (st, []) (fun msgv =>
            (st, [.invokeProgress cb msgv])))))
  else (st, [])

/-- Handling of an inbound response envelope: resolve and remove the
matching pending entry; an error envelope is reported and its error
representation is propagated to the registered callback; an unmatched id is
dropped. -/
def handle_response (st : ClientState) (msg : Json) : ClientState × List Effect :=
  ((getField msg keyId).bind asNat).elim (st, []) (fun rid =>
    (lookupA st.pending rid).elim (st, []) (fun cb =>
      (getField msg keyError).elim
        ((getField msg keyResult).elim (st, []) (fun r =>
          ({ st with pending := removeA st.pending rid },
            [.invokeCompletion cb (.ok r)])))
        (fun e => ({ st with pending := removeA st.pending rid },
          [.printErrorResponse e, .invokeCompletion cb (.err e)]))))

/-- Model of `_handle_message`: dispatch one decoded inbound message. -/
def handle_message (st : ClientState) (msg : Json) : ClientState × List Effect :=
  (getField msg keyMethod).elim (handle_response st msg) (fun mv => handle_progress st mv msg)

/-- Model of `send_request`: allocate the next id, register the completion callback
under it, register the progress callback under the params' `progressId`
when both are present, and send the JSON-RPC envelope.  Returns the new
state, the effects and the id used. -/
def send_request (st : ClientState) (method : List Nat) (params : Json) (cb : Nat)
    (progress_cb : Option Nat) : ClientState × List Effect × Nat :=
  let rid := st.id_counter
  let st1 : ClientState :=
    { st with pending := insertA st.pending rid cb, id_counter := rid + 1 }
  let st2 : ClientState :=
    match progress_cb, (getField params keyProgressId).bind asNat with
    | some pcb, some pid =>
      { st1 with progress_callbacks := insertA st1.progress_callbacks pid pcb }
    | _, _ => st1
  let r := send st2 (Json.obj (JObj.cons keyMethod (Json.str method)
    (JObj.cons keyParams params (JObj.cons keyId (Json.num rid) JObj.nil))))
  (r.1, r.2, rid)

/-- One requested call of `send_request`. -/
structure ReqSpec where
  method : List Nat
  params : Json
  cb : Nat
  progress_cb : Option Nat

/-- Run a sequence of `send_request` calls, collecting the assigned ids. -/
def runRequests : ClientState → List ReqSpec → ClientState × List Nat
  | st, [] => (st, [])
  | st, r :: rs =>
    let s1 := send_request st r.method r.params r.cb r.progress_cb
    let rest := runRequests s1.1 rs
    (rest.1, s1.2.2 :: rest.2)

theorem send_request_id (st : ClientState) (m : List Nat) (p : Json) (cb : Nat)
    (pcb : Option Nat) :
    (send_request st m p cb pcb).2.2 = st.id_counter ∧
      (send_request st m p cb pcb).1.id_counter = st.id_counter + 1 ∧
      (send_request st m p cb pcb).1.pending =
        insertA st.pending st.id_counter cb := by
  unfold send_request send
  cases pcb with
  | none => cases st.proc <;> simp
  | some pcb =>
    cases (getField p keyProgressId).bind asNat <;> cases st.proc <;> simp

theorem runRequests_ids (rs : List ReqSpec) : ∀ st : ClientState,
    (runRequests st rs).2 = List.range' st.id_counter rs.length ∧
      (runRequests st rs).1.id_counter = st.id_counter + rs.length := by
  induction rs with
  | nil => intro st; simp [runRequests, List.range']
  | cons r rs ih =>
    intro st
    obtain ⟨h1, h2, -⟩ := send_request_id st r.method r.params r.cb r.progress_cb
    obtain ⟨ih1, ih2⟩ := ih (send_request st r.method r.params r.cb r.progress_cb).1
    constructor
    · show (send_request st r.method r.params r.cb r.progress_cb).2.2 ::
        (runRequests (send_request st r.method r.params r.cb r.progress_cb).1 rs).2 = _
      rw [h1, ih1, h2, List.length_cons, List.range'_succ]
    · show (runRequests (send_request st r.method r.params r.cb r.progress_cb).1 rs).1.id_counter = _
      rw [ih2, h2, List.length_cons]
      omega

/-- C2: on a fresh client (id counter 1), a sequence of N `send_request`
calls assigns exactly the ids 1..N in order — all distinct, none reused —
and leaves the id counter at N + 1. -/
theorem send_request_ids_c2 (path : String) (reqs : List ReqSpec) :
    (initClient path).id_counter = 1 ∧
      (runRequests (initClient path) reqs).2 = List.range' 1 reqs.length ∧
      (runRequests (initClient path) reqs).2.Nodup ∧
      (runRequests (initClient path) reqs).1.id_counter = reqs.length + 1 := by
  obtain ⟨h1, h2⟩ := runRequests_ids reqs (initClient path)
  refine ⟨rfl, h1, ?_, by rw [h2]; show 1 + reqs.length = reqs.length + 1; omega⟩
  rw [h1]
  exact List.nodup_range' _ _

/-- C9: `_send` while the subprocess handle is absent does not raise and
does not write to the wire: the state is unchanged (the client stays
usable) and the only effect is the diagnostic message. -/
theorem send_without_process_c9 (st : ClientState) (payload : Json)
    (h : st.proc = none) :
    send st payload = (st, [.printDiag "Tried to send but process not running"]) ∧
      ∀ bytes, Effect.writeFrame bytes ∉ (send st payload).2 := by
  constructor
  · unfold send
    rw [h]
  · intro bytes hmem
    unfold send at hmem
    rw [h] at hmem
    simp at hmem

/-- Concrete check of C9: sending on a fresh client (no process) leaves the
state intact and only prints the diagnostic. -/
theorem send_without_process_c9_witness :
    send (initClient "codeql") (Json.num 1) =
      (initClient "codeql", [.printDiag "Tried to send but process not running"]) ∧
      ∀ bytes, Effect.writeFrame bytes ∉ (send (initClient "codeql") (Json.num 1)).2 :=
  send_without_process_c9 (initClient "codeql") (Json.num 1) rfl

/-! ## Blocking-wait helpers

Modelled from the spec: `wait_for_progress_done(progress_id)` returns a
callback and a threading event; the callback marks the operation done
exactly when it receives a progress dictionary whose correlation id equals
`progress_id` and whose `step` equals its `maxStep`. -/

/-- Does this progress message mark the operation with id `k` as done? -/
def progressDone (k : Nat) (arg : Json) : Bool :=
  match getField arg keyId, getField arg keyStep, getField arg keyMaxStep with
  | some (Json.num i), some (Json.num s), some (Json.num m) => i == (k : Int) && s == m
  | _, _, _ => false

/-- The state of the waiter's event after the callback has seen the given
sequence of messages (an event, once set, stays set). -/
def eventAfter (k : Nat) (args : List Json) : Bool :=
  args.foldl (fun e a => e || progressDone k a) false

theorem foldl_or_any (f : Json → Bool) (args : List Json) : ∀ b : Bool,
    args.foldl (fun e a => e || f a) b = (b || args.any f) := by
  induction args with
  | nil => intro b; simp
  | cons a args ih =>
    intro b
    rw [List.foldl_cons, ih, List.any_cons]
    cases b <;> cases f a <;> simp

/-- A convenient progress-notification constructor: `{id, step, maxStep}`. -/
def progressParams (i s m : Int) : Json :=
  Json.obj (JObj.cons keyId (Json.num i)
    (JObj.cons keyStep (Json.num s) (JObj.cons keyMaxStep (Json.num m) JObj.nil)))

theorem getField_progressParams (i s m : Int) :
    getField (progressParams i s m) keyId = some (Json.num i) ∧
      getField (progressParams i s m) keyStep = some (Json.num s) ∧
      getField (progressParams i s m) keyMaxStep = some (Json.num m) := by
  refine ⟨rfl, ?_, ?_⟩ <;>
    simp [progressParams, getField, lookupObj, keyId, keyStep, keyMaxStep, strBytes]

/-- C3: the waiter's done event is set after a sequence of callback
invocations exactly when some received message is a progress dictionary
whose id equals the waiter's id and whose step equals its maxStep; a
message with a different id, or with `step ≠ maxStep` (in particular
`step < maxStep`), or a bare string, never sets it. -/
theorem wait_for_progress_done_c3 (k : Nat) :
    (∀ args : List Json,
      eventAfter k args = true ↔ ∃ arg ∈ args, progressDone k arg = true) ∧
    (∀ arg i s m, getField arg keyId = some (Json.num i) →
      getField arg keyStep = some (Json.num s) →
      getField arg keyMaxStep = some (Json.num m) →
      (progressDone k arg = true ↔ (i = (k : Int) ∧ s = m))) ∧
    (∀ s, progressDone k (Json.str s) = false) := by
  refine ⟨fun args => ?_, fun arg i s m h1 h2 h3 => ?_, fun s => rfl⟩
  · rw [eventAfter, foldl_or_any]
    simp [List.any_eq_true]
  · rw [progressDone, h1, h2, h3]
    simp

/-- Concrete check of C3 on the test's messages: with waiter id 123, the
event stays unset on a string message, on `{id 456, step 10, maxStep 10}`
and on `{id 123, step 5, maxStep 10}`, and is set by
`{id 123, step 10, maxStep 10}`. -/
theorem wait_for_progress_done_c3_witness :
    (eventAfter 123 [Json.str (strBytes "progress message"), progressParams 456 10 10,
        progressParams 123 5 10] = true ↔
      ∃ arg ∈ [Json.str (strBytes "progress message"), progressParams 456 10 10,
        progressParams 123 5 10], progressDone 123 arg = true) ∧
    (progressDone 123 (progressParams 123 10 10) = true ↔
      ((123 : Int) = ((123 : Nat) : Int) ∧ (10 : Int) = 10)) ∧
    eventAfter 123 [Json.str (strBytes "progress message"), progressParams 456 10 10,
      progressParams 123 5 10] = false ∧
    eventAfter 123 [progressParams 123 10 10] = true :=
  ⟨(wait_for_progress_done_c3 123).1 _,
    (wait_for_progress_done_c3 123).2.1 (progressParams 123 10 10) 123 10 10
      (getField_progressParams 123 10 10).1 (getField_progressParams 123 10 10).2.1
      (getField_progressParams 123 10 10).2.2,
    by decide, by decide⟩

/-- A `ql/progressUpdated` notification with the given params object. -/
def progressUpdatedMsg (params : Json) : Json :=
  Json.obj (JObj.cons keyMethod (Json.str methodProgressUpdated)
    (JObj.cons keyParams params JObj.nil))

/-- An `evaluation/progress` notification with the given params object. -/
def evalProgressMsg (params : Json) : Json :=
  Json.obj (JObj.cons keyMethod (Json.str methodEvaluationProgress)
    (JObj.cons keyParams params JObj.nil))

theorem getField_progressUpdatedMsg (params : Json) :
    getField (progressUpdatedMsg params) keyMethod = some (Json.str methodProgressUpdated) ∧
      getField (progressUpdatedMsg params) keyParams = some params := by
  constructor
  · rfl
  · show lookupObj _ _ = _
    rw [lookupObj, if_neg (by decide), lookupObj, if_pos rfl]

theorem getField_evalProgressMsg (params : Json) :
    getField (evalProgressMsg params) keyMethod = some (Json.str methodEvaluationProgress) ∧
      getField (evalProgressMsg params) keyParams = some params := by
  constructor
  · rfl
  · show lookupObj _ _ = _
    rw [lookupObj, if_neg (by decide), lookupObj, if_pos rfl]

/-- C5: dispatch of inbound progress notifications.  A `ql/progressUpdated`
notification whose params carry id `pid` invokes the callback registered
under `pid` with the whole params object; an `evaluation/progress`
notification whose params carry progressId `pid` invokes that callback with
only the message value; in both shapes, a notification whose correlation id
matches no registered callback is dropped silently (no effects, state
unchanged). -/
theorem handle_message_dispatch_c5 (st : ClientState) (params : Json) (pid cb : Nat) :
    ((getField params keyId).bind asNat = some pid →
      lookupA st.progress_callbacks pid = some cb →
      handle_message st (progressUpdatedMsg params) =
        (st, [Effect.invokeProgress cb params])) ∧
    ((getField params keyId).bind asNat = some pid →
      lookupA st.progress_callbacks pid = none →
      handle_message st (progressUpdatedMsg params) = (st, [])) ∧
    (∀ msgv, (getField params keyProgressId).bind asNat = some pid →
      lookupA st.progress_callbacks pid = some cb →
      getField params keyMessage = some msgv →
      handle_message st (evalProgressMsg params) =
        (st, [Effect.invokeProgress cb msgv])) ∧
    ((getField params keyProgressId).bind asNat = some pid →
      lookupA st.progress_callbacks pid = none →
      handle_message st (evalProgressMsg params) = (st, [])) := by
  obtain ⟨hm1, hp1⟩ := getField_progressUpdatedMsg params
  obtain ⟨hm2, hp2⟩ := getField_evalProgressMsg params
  refine ⟨fun hid hcb => ?_, fun hid hcb => ?_, fun msgv hid hcb hmsg => ?_,
    fun hid hcb => ?_⟩
  · simp only [handle_message, hm1, Option.elim_some, handle_progress, reduceIte, hp1,
      hid, hcb]
  · simp only [handle_message, hm1, Option.elim_some, Option.elim_none, handle_progress,
      reduceIte, hp1, hid, hcb]
  · simp only [handle_message, hm2, Option.elim_some, handle_progress, reduceIte, hp2,
      hid, hcb, hmsg]
    rw [if_neg (by decide)]
  · simp only [handle_message, hm2, Option.elim_some, Option.elim_none, handle_progress,
      reduceIte, hp2, hid, hcb]
    rw [if_neg (by decide)]

/-- Concrete check of C5: with callback token 7 registered under id 1, a
`ql/progressUpdated` notification for id 1 invokes it with the whole params
object, an `evaluation/progress` notification for progressId 1 invokes it
with just the message value, and a notification whose id is unregistered is
dropped with no effects. -/
theorem handle_message_dispatch_c5_witness :
    handle_message ⟨"codeql", none, [], [(1, 7)], true, 1⟩
        (progressUpdatedMsg (progressParams 1 5 10)) =
      (⟨"codeql", none, [], [(1, 7)], true, 1⟩,
        [Effect.invokeProgress 7 (progressParams 1 5 10)]) ∧
    handle_message ⟨"codeql", none, [], [(1, 7)], true, 1⟩
        (evalProgressMsg (Json.obj (JObj.cons keyProgressId (Json.num 1)
          (JObj.cons keyMessage (Json.str (strBytes "Running query...")) JObj.nil)))) =
      (⟨"codeql", none, [], [(1, 7)], true, 1⟩,
        [Effect.invokeProgress 7 (Json.str (strBytes "Running query..."))]) ∧
    handle_message ⟨"codeql", none, [], [(1, 7)], true, 1⟩
        (progressUpdatedMsg (progressParams 2 5 10)) =
      (⟨"codeql", none, [], [(1, 7)], true, 1⟩, []) :=
  ⟨(handle_message_dispatch_c5 _ _ 1 7).1 (by decide) rfl,
    (handle_message_dispatch_c5 _ _ 1 7).2.2.1 _ (by decide) rfl (by decide),
    (handle_message_dispatch_c5 _ _ 2 7).2.1 (by decide) rfl⟩

/-! ## Blocking evaluate-and-wait over a message trace

Modelled from the spec: `evaluate_and_wait` / `quick_evaluate_and_wait`
register a completion callback for the request and a progress-done callback
for its progress id, then block until the done condition fires; an
error-shaped response must raise a RuntimeError-class failure even if no
done progress notification ever arrives, so the completion callback records
the error representation and releases the wait. -/

/-- Token of the internal completion callback of a blocking call. -/
def completionToken : Nat := 0

/-- Token of the internal progress-done callback of a blocking call. -/
def progressToken : Nat := 1

/-- Waiter state: the done event, and holders for the error representation
and the result. -/
structure WaitState where
  done : Bool
  errorHolder : Option Json
  resultHolder : Option Json
deriving DecidableEq

/-- Fresh waiter. -/
def initWait : WaitState := ⟨false, none, none⟩

/-- Interpretation of one client effect on the waiter for progress id
`pid`: the progress-done callback sets the event on a done notification;
the completion callback stores a result, or stores an error representation
and releases the wait. -/
def applyEffect (pid : Nat) (w : WaitState) (e : Effect) : WaitState :=
  match e with
  | .invokeProgress cb arg =>
    if cb = progressToken ∧ progressDone pid arg then { w with done := true } else w
  | .invokeCompletion cb (.ok r) =>
    if cb = completionToken then { w with resultHolder := some r } else w
  | .invokeCompletion cb (.err e) =>
    if cb = completionToken then { w with errorHolder := some e, done := true } else w
  | _ => w

/-- Process one inbound message: dispatch it through the client and apply
the resulting effects to the waiter. -/
def stepMsg (pid : Nat) (sw : ClientState × WaitState) (msg : Json) :
    ClientState × WaitState :=
  ((handle_message sw.1 msg).1,
    (handle_message sw.1 msg).2.foldl (applyEffect pid) sw.2)

/-- Process a whole inbound message trace. -/
def runTrace (pid : Nat) (sw : ClientState × WaitState) (trace : List Json) :
    ClientState × WaitState :=
  trace.foldl (stepMsg pid) sw

/-- Outcome of a blocking call. -/
inductive WaitOutcome where
  | ok (result : Option Json)
  | runtimeError (e : Json)
  | timeout
deriving DecidableEq

/-- Read the outcome off the final waiter state: an error representation
raises a RuntimeError-class failure, a done event returns, otherwise the
wait is still blocked (timeout). -/
def outcomeOf (w : WaitState) : WaitOutcome :=
  match w.errorHolder with
  | some e => .runtimeError e
  | none => if w.done then .ok w.resultHolder else .timeout

/-- Client-and-waiter state right after a blocking call has sent its
request with id `R` and progress id `P`. -/
def waitStart (R P : Nat) : ClientState × WaitState :=
  (⟨"codeql", some (), [(R, completionToken)], [(P, progressToken)], true, R + 1⟩, initWait)

/-- Observable outcome of `evaluate_and_wait` whose request got id `R` and
progress id `P`, as a function of the inbound message trace. -/
def evaluate_and_wait (R P : Nat) (trace : List Json) : WaitOutcome :=
  outcomeOf (runTrace P (waitStart R P) trace).2

/-- A response envelope carrying an error field for request id `R`. -/
def errorResponse (R : Nat) (e : Json) : Json :=
  Json.obj (JObj.cons keyId (Json.num R) (JObj.cons keyError e JObj.nil))

/-- Is this message a response envelope correlated with request id `R`? -/
def isResponseShape (R : Nat) (m : Json) : Prop :=
  getField m keyMethod = none ∧ (getField m keyId).bind asNat = some R

theorem handle_progress_shape (st : ClientState) (mv m : Json) :
    (handle_progress st mv m).1 = st ∧
      ((handle_progress st mv m).2 = [] ∨
        ∃ cb arg, (handle_progress st mv m).2 = [Effect.invokeProgress cb arg]) := by
  unfold handle_progress
  split
  · cases getField m keyParams with
    | none => exact ⟨rfl, Or.inl rfl⟩
    | some params =>
      simp only [Option.elim_some]
      cases (getField params keyId).bind asNat with
      | none => exact ⟨rfl, Or.inl rfl⟩
      | some pid =>
        simp only [Option.elim_some]
        cases lookupA st.progress_callbacks pid with
        | none => exact ⟨rfl, Or.inl rfl⟩
        | some cb =>
          simp only [Option.elim_some]
          simp
  · split
    · cases getField m keyParams with
      | none => exact ⟨rfl, Or.inl rfl⟩
      | some params =>
        simp only [Option.elim_some]
        cases (getField params keyProgressId).bind asNat with
        | none => exact ⟨rfl, Or.inl rfl⟩
        | some pid =>
          simp only [Option.elim_some]
          cases lookupA st.progress_callbacks pid with
          | none => exact ⟨rfl, Or.inl rfl⟩
          | some cb =>
            simp only [Option.elim_some]
            cases getField params keyMessage with
            | none => exact ⟨rfl, Or.inl rfl⟩
            | some msgv =>
              simp only [Option.elim_some]
              simp
    · exact ⟨rfl, Or.inl rfl⟩

theorem handle_message_no_completion (st : ClientState) (m : Json)
    (h : ∀ rid, getField m keyMethod = none →
      (getField m keyId).bind asNat = some rid → lookupA st.pending rid = none) :
    (handle_message st m).1 = st ∧
      ∀ cb a, Effect.invokeCompletion cb a ∉ (handle_message st m).2 := by
  unfold handle_message
  cases hm : getField m keyMethod with
  | some mv =>
    simp only [Option.elim_some]
    obtain ⟨h1, h2⟩ := handle_progress_shape st mv m
    refine ⟨h1, fun cb a hmem => ?_⟩
    rcases h2 with h2 | ⟨cb2, a2, h2⟩ <;> rw [h2] at hmem <;> simp at hmem
  | none =>
    simp only [Option.elim_none]
    unfold handle_response
    cases hid : (getField m keyId).bind asNat with
    | none => simp
    | some rid =>
      simp only [Option.elim_some]
      rw [h rid hm hid]
      simp

theorem foldl_applyEffect_errorHolder (pid : Nat) (effs : List Effect) :
    ∀ w : WaitState, (∀ cb a, Effect.invokeCompletion cb a ∉ effs) →
      (effs.foldl (applyEffect pid) w).errorHolder = w.errorHolder := by
  induction effs with
  | nil => intro w _; rfl
  | cons e effs ih =>
    intro w h
    rw [List.foldl_cons]
    rw [ih _ (fun cb a hmem => h cb a (by simp [hmem]))]
    cases e with
    | invokeProgress cb arg =>
      show (applyEffect pid w (.invokeProgress cb arg)).errorHolder = _
      rw [show applyEffect pid w (.invokeProgress cb arg) =
          if cb = progressToken ∧ progressDone pid arg then { w with done := true } else w
          from rfl]
      split <;> rfl
    | invokeCompletion cb a => exact absurd (by simp) (h cb a)
    | printErrorResponse e => rfl
    | printDiag s => rfl
    | writeFrame b => rfl

theorem runTrace_no_response (R P : Nat) : ∀ (pre : List Json) (st : ClientState)
    (w : WaitState), st.pending = [(R, completionToken)] →
    (∀ m ∈ pre, ¬ isResponseShape R m) →
    (runTrace P (st, w) pre).1 = st := by
  intro pre
  induction pre with
  | nil => intro st w _ _; rfl
  | cons m pre ih =>
    intro st w hpend hpre
    have hnc := handle_message_no_completion st m (fun rid hmeth hid => by
      by_cases hr : rid = R
      · exact absurd ⟨hmeth, hr ▸ hid⟩ (hpre m (by simp))
      · rw [hpend]
        unfold lookupA
        rw [if_neg (fun hc => hr hc.symm)]
        rfl)
    show (runTrace P (stepMsg P (st, w) m) pre).1 = st
    rw [show stepMsg P (st, w) m =
        (st, (handle_message st m).2.foldl (applyEffect P) w) from by
      unfold stepMsg
      rw [hnc.1]]
    exact ih st _ hpend (fun m2 hm2 => hpre m2 (by simp [hm2]))

theorem runTrace_empty_pending (P : Nat) : ∀ (post : List Json) (st : ClientState)
    (w : WaitState), st.pending = [] →
    (runTrace P (st, w) post).2.errorHolder = w.errorHolder := by
  intro post
  induction post with
  | nil => intro st w _; rfl
  | cons m post ih =>
    intro st w hpend
    have hnc := handle_message_no_completion st m (fun rid _ _ => by
      rw [hpend]
      rfl)
    show (runTrace P (stepMsg P (st, w) m) post).2.errorHolder = w.errorHolder
    rw [show stepMsg P (st, w) m =
        (st, (handle_message st m).2.foldl (applyEffect P) w) from by
      unfold stepMsg
      rw [hnc.1]]
    rw [ih st _ hpend]
    exact foldl_applyEffect_errorHolder P _ w hnc.2

theorem handle_message_errorResponse (st : ClientState) (R : Nat) (e : Json)
    (hl : lookupA st.pending R = some completionToken) :
    handle_message st (errorResponse R e) =
      ({ st with pending := removeA st.pending R },
        [.printErrorResponse e, .invokeCompletion completionToken (.err e)]) := by
  have hm : getField (errorResponse R e) keyMethod = none := by
    show lookupObj _ _ = none
    rw [lookupObj, if_neg (by decide), lookupObj, if_neg (by decide), lookupObj]
  have hid : (getField (errorResponse R e) keyId).bind asNat = some R := by
    rw [show getField (errorResponse R e) keyId = some (Json.num R) from rfl]
    show asNat (Json.num R) = some R
    simp only [asNat]
    rw [if_pos (Int.natCast_nonneg R)]
    simp
  have herr : getField (errorResponse R e) keyError = some e := by
    show lookupObj _ _ = _
    rw [lookupObj, if_neg (by decide), lookupObj, if_pos rfl]
  unfold handle_message
  rw [hm]
  simp only [Option.elim_none]
  unfold handle_response
  rw [hid]
  simp only [Option.elim_some]
  rw [hl]
  simp only [Option.elim_some]
  rw [herr]
  simp only [Option.elim_some]

theorem foldl_applyEffect_error (P : Nat) (w : WaitState) (e : Json) :
    (([Effect.printErrorResponse e,
        Effect.invokeCompletion completionToken (.err e)]).foldl
      (applyEffect P) w).errorHolder = some e := rfl

/-- C4: a blocking evaluation whose request receives a response envelope
carrying an error field raises a RuntimeError-class failure carrying that
error, regardless of the rest of the trace — in particular even if no
progress notification with `step = maxStep` ever arrives for the
operation.  The messages preceding the response may be anything that is not
a response for the same request id. -/
theorem evaluate_and_wait_error_c4 (R P : Nat) (pre post : List Json) (e : Json)
    (hpre : ∀ m ∈ pre, ¬ isResponseShape R m) :
    evaluate_and_wait R P (pre ++ errorResponse R e :: post) =
      WaitOutcome.runtimeError e := by
  unfold evaluate_and_wait
  rw [show runTrace P (waitStart R P) (pre ++ errorResponse R e :: post) =
      runTrace P (stepMsg P (runTrace P (waitStart R P) pre) (errorResponse R e))
        post from by
    unfold runTrace
    rw [List.foldl_append, List.foldl_cons]]
  have h1 : (runTrace P (waitStart R P) pre).1 = (waitStart R P).1 :=
    runTrace_no_response R P pre (waitStart R P).1 (waitStart R P).2 rfl hpre
  have hstep : stepMsg P (runTrace P (waitStart R P) pre) (errorResponse R e) =
      ({ (waitStart R P).1 with pending := removeA (waitStart R P).1.pending R },
        List.foldl (applyEffect P) (runTrace P (waitStart R P) pre).2
          [Effect.printErrorResponse e,
            Effect.invokeCompletion completionToken (.err e)]) := by
    rw [show stepMsg P (runTrace P (waitStart R P) pre) (errorResponse R e) =
        ((handle_message (runTrace P (waitStart R P) pre).1 (errorResponse R e)).1,
          List.foldl (applyEffect P) (runTrace P (waitStart R P) pre).2
            (handle_message (runTrace P (waitStart R P) pre).1
              (errorResponse R e)).2) from rfl]
    rw [h1, handle_message_errorResponse (waitStart R P).1 R e (by
      show lookupA [(R, completionToken)] R = some completionToken
      unfold lookupA
      rw [if_pos rfl])]
  rw [hstep]
  have herr2 : (runTrace P
      ({ (waitStart R P).1 with pending := removeA (waitStart R P).1.pending R },
        List.foldl (applyEffect P) (runTrace P (waitStart R P) pre).2
          [Effect.printErrorResponse e,
            Effect.invokeCompletion completionToken (.err e)]) post).2.errorHolder =
      some e := by
    rw [runTrace_empty_pending P post _ _ (by
      show removeA [(R, completionToken)] R = []
      unfold removeA
      simp)]
    exact foldl_applyEffect_error P _ e
  unfold outcomeOf
  rw [herr2]

/-- Concrete check of C4: with request id 1 and progress id 2, a trace
consisting of one non-matching progress notification followed by an error
response (and no done progress at all) makes the blocking call raise. -/
theorem evaluate_and_wait_error_c4_witness :
    evaluate_and_wait 1 2
      [progressUpdatedMsg (progressParams 2 3 10),
        errorResponse 1 (Json.str (strBytes "Query failed"))] =
      WaitOutcome.runtimeError (Json.str (strBytes "Query failed")) :=
  evaluate_and_wait_error_c4 1 2 [progressUpdatedMsg (progressParams 2 3 10)] []
    (Json.str (strBytes "Query failed")) (by
      intro m hm
      rw [List.mem_singleton] at hm
      subst hm
      intro hshape
      exact absurd ((getField_progressUpdatedMsg _).1 ▸ hshape.1) (by simp))

/-! ## SymbolLocator

Modelled from the spec: `find_class_identifier_position` /
`find_predicate_identifier_position` scan the query file's text for a
class-declaration or predicate-declaration construct whose declared
identifier equals the requested name exactly, returning the 1-based span of
just the identifier token of the first textual occurrence, and fail with a
NotFoundError naming the missing symbol when no matching declaration
exists.  The file is modelled as a list of lines of bytes. -/

/-- Identifier-constituent bytes (letters, digits, underscore). -/
def isIdentByte (b : Nat) : Bool :=
  (48 ≤ b && b ≤ 57) || (65 ≤ b && b ≤ 90) || (97 ≤ b && b ≤ 122) || b == 95

/-- Is the previous byte (if any) a word boundary? -/
def boundaryBefore : Option Nat → Bool
  | none => true
  | some c => !isIdentByte c

/-- Does the remainder start at a word boundary (or end)? -/
def boundaryAfterB : List Nat → Bool
  | [] => true
  | c :: _ => !isIdentByte c

/-- Does `l` start with `p`? -/
def hasPrefixB : List Nat → List Nat → Bool
  | [], _ => true
  | _ :: _, [] => false
  | p :: ps, b :: bs => p == b && hasPrefixB ps bs

/-- Skip spaces, then require an opening parenthesis. -/
def parenAfterSpaces : List Nat → Bool
  | [] => false
  | 32 :: r => parenAfterSpaces r
  | 40 :: _ => true
  | _ => false

/-- Does a class declaration of `name` start here: a word boundary, the
keyword `class`, a space, the exact name, and a word boundary after it? -/
def classTok (name : List Nat) (prev : Option Nat) (l : List Nat) : Bool :=
  boundaryBefore prev && hasPrefixB (strBytes "class " ++ name) l &&
    boundaryAfterB (l.drop (6 + name.length))

/-- Does a predicate declaration of `name` start here: a word boundary, the
exact name, then (after optional spaces) its parameter list's opening
parenthesis? -/
def predTok (name : List Nat) (prev : Option Nat) (l : List Nat) : Bool :=
  boundaryBefore prev && hasPrefixB name l && parenAfterSpaces (l.drop name.length)

/-- A declaration recognized by token predicate `tok` occurs at offset `p`
of the remaining line, whose preceding byte is `prev`. -/
def declAt (tok : Option Nat → List Nat → Bool) : Option Nat → List Nat → Nat → Prop
  | prev, l, 0 => tok prev l = true
  | _, [], _+1 => False
  | _, c :: r, p+1 => declAt tok (some c) r p

/-- Scan one line for the first offset where `tok` matches. -/
def scanLine (tok : Option Nat → List Nat → Bool) : Option Nat → List Nat → Nat → Option Nat
  | prev, l, idx =>
    if tok prev l then some idx
    else
      match l with
      | [] => none
      | c :: r => scanLine tok (some c) r (idx + 1)

/-- Scan lines in order, returning 1-based line number and 0-based column
of the first match. -/
def findOnLines (f : List Nat → Option Nat) : List (List Nat) → Nat → Option (Nat × Nat)
  | [], _ => none
  | l :: rest, ln =>
    match f l with
    | some col => some (ln, col)
    | none => findOnLines f rest (ln + 1)

/-- The NotFoundError message for a missing class name. -/
def classNotFoundMsg (name : List Nat) : List Nat :=
  strBytes "Class name '" ++ name ++ strBytes "' not found in query file"

/-- The NotFoundError message for a missing predicate name. -/
def predNotFoundMsg (name : List Nat) : List Nat :=
  strBytes "Predicate name '" ++ name ++ strBytes "' not found in query file"

/-- Find the 1-based span of the identifier token of the first class
declaration named `name`. -/
def find_class_identifier_position (lines : List (List Nat)) (name : List Nat) :
    Except (List Nat) (Nat × Nat × Nat × Nat) :=
  match findOnLines (fun l => scanLine (classTok name) none l 0) lines 1 with
  | some (ln, col) => .ok (ln, col + 7, ln, col + 7 + name.length)
  | none => .error (classNotFoundMsg name)

/-- Find the 1-based span of the identifier token of the first predicate
declaration named `name`. -/
def find_predicate_identifier_position (lines : List (List Nat)) (name : List Nat) :
    Except (List Nat) (Nat × Nat × Nat × Nat) :=
  match findOnLines (fun l => scanLine (predTok name) none l 0) lines 1 with
  | some (ln, col) => .ok (ln, col + 1, ln, col + 1 + name.length)
  | none => .error (predNotFoundMsg name)

theorem scanLine_none_iff (tok : Option Nat → List Nat → Bool) :
    ∀ (l : List Nat) (prev : Option Nat) (idx : Nat),
      scanLine tok prev l idx = none ↔ ∀ p, ¬ declAt tok prev l p := by
  intro l
  induction l with
  | nil =>
    intro prev idx
    constructor
    · intro h p
      cases p with
      | zero =>
        intro hd
        rw [scanLine, if_pos (show tok prev [] = true from hd)] at h
        exact Option.noConfusion h
      | succ p => exact fun hd => hd
    · intro h
      rw [scanLine, if_neg (fun ht : tok prev [] = true => h 0 ht)]
  | cons c r ih =>
    intro prev idx
    constructor
    · intro h p
      cases p with
      | zero =>
        intro hd
        rw [scanLine, if_pos (show tok prev (c :: r) = true from hd)] at h
        exact Option.noConfusion h
      | succ p =>
        intro hd
        by_cases htok : tok prev (c :: r) = true
        · rw [scanLine, if_pos htok] at h
          exact Option.noConfusion h
        · rw [scanLine, if_neg htok] at h
          exact (ih (some c) (idx + 1)).mp h p hd
    · intro h
      rw [scanLine, if_neg (fun ht : tok prev (c :: r) = true => h 0 ht)]
      exact (ih (some c) (idx + 1)).mpr (fun p => h (p + 1))

theorem findOnLines_none (f : List Nat → Option Nat) :
    ∀ (ls : List (List Nat)) (ln : Nat), (∀ l ∈ ls, f l = none) →
      findOnLines f ls ln = none := by
  intro ls
  induction ls with
  | nil => intro ln _; rfl
  | cons l rest ih =>
    intro ln h
    rw [findOnLines, h l (by simp)]
    exact ih (ln + 1) (fun l2 hl2 => h l2 (by simp [hl2]))

/-- C6: when the file holds no class declaration (respectively no predicate
declaration) whose declared identifier equals the requested name exactly,
the locator fails with the NotFoundError message naming that exact symbol
(the name occurs verbatim inside the message). -/
theorem symbol_not_found_c6 (lines : List (List Nat)) (name : List Nat) :
    ((¬ ∃ l ∈ lines, ∃ p, declAt (classTok name) none l p) →
      find_class_identifier_position lines name = .error (classNotFoundMsg name)) ∧
    ((¬ ∃ l ∈ lines, ∃ p, declAt (predTok name) none l p) →
      find_predicate_identifier_position lines name = .error (predNotFoundMsg name)) ∧
    (∃ pre post, classNotFoundMsg name = pre ++ name ++ post) ∧
    (∃ pre post, predNotFoundMsg name = pre ++ name ++ post) := by
  refine ⟨fun h => ?_, fun h => ?_, ⟨_, _, rfl⟩, ⟨_, _, rfl⟩⟩
  · unfold find_class_identifier_position
    rw [findOnLines_none _ lines 1 (fun l hl => (scanLine_none_iff _ l none 0).mpr
      (fun p hd => h ⟨l, hl, p, hd⟩))]
  · unfold find_predicate_identifier_position
    rw [findOnLines_none _ lines 1 (fun l hl => (scanLine_none_iff _ l none 0).mpr
      (fun p hd => h ⟨l, hl, p, hd⟩))]

/-- Concrete check of C6: a file consisting of the single line
`// No class here` has no declaration of `NonExistent`, and both locators
report the NotFoundError naming it. -/
theorem symbol_not_found_c6_witness :
    find_class_identifier_position [strBytes "// No class here"]
        (strBytes "NonExistent") =
      .error (classNotFoundMsg (strBytes "NonExistent")) ∧
    find_predicate_identifier_position [strBytes "// No class here"]
        (strBytes "NonExistent") =
      .error (predNotFoundMsg (strBytes "NonExistent")) := by
  constructor
  · apply (symbol_not_found_c6 [strBytes "// No class here"] (strBytes "NonExistent")).1
    rintro ⟨l, hl, p, hd⟩
    rw [List.mem_singleton] at hl
    subst hl
    exact (scanLine_none_iff _ _ none 0).mp (by decide) p hd
  · apply (symbol_not_found_c6 [strBytes "// No class here"] (strBytes "NonExistent")).2.1
    rintro ⟨l, hl, p, hd⟩
    rw [List.mem_singleton] at hl
    subst hl
    exact (scanLine_none_iff _ _ none 0).mp (by decide) p hd

/-! ## decode_bqrs

Modelled from the spec: `decode_bqrs(path, format)` is not a protocol
request — it checks that the input path exists, invokes the engine's
external `bqrs decode` command synchronously, fails when the command exits
non-zero, and otherwise returns the command's standard output verbatim.
The filesystem and the external command are environment parameters. -/

/-- Result of running the external decode command. -/
structure CmdResult where
  returncode : Int
  stdout : String
  stderr : String
deriving DecidableEq

/-- Failures of `decode_bqrs`. -/
inductive BqrsError where
  | fileNotFound (path : String)
  | decodeFailed (message : String)
deriving DecidableEq

/-- Model of `decode_bqrs`, as a function of whether the path exists and of the
external command's result. -/
def decode_bqrs (pathExists : Bool) (bqrs_path : String) (run : CmdResult) :
    Except BqrsError String :=
  if !pathExists then .error (.fileNotFound bqrs_path)
  else if run.returncode ≠ 0 then
    .error (.decodeFailed ("Failed to decode BQRS: " ++ run.stderr))
  else .ok run.stdout

/-- C7: `decode_bqrs` fails with FileNotFoundError when the input path does
not exist, fails with a decode-failure error when the external command
exits non-zero, and otherwise returns the command's standard output
verbatim. -/
theorem decode_bqrs_c7 (pathExists : Bool) (bqrs_path : String) (run : CmdResult) :
    (pathExists = false →
      decode_bqrs pathExists bqrs_path run = .error (.fileNotFound bqrs_path)) ∧
    (pathExists = true → run.returncode ≠ 0 →
      decode_bqrs pathExists bqrs_path run =
        .error (.decodeFailed ("Failed to decode BQRS: " ++ run.stderr))) ∧
    (pathExists = true → run.returncode = 0 →
      decode_bqrs pathExists bqrs_path run = .ok run.stdout) := by
  refine ⟨fun h => ?_, fun h hrc => ?_, fun h hrc => ?_⟩
  · unfold decode_bqrs
    rw [h]
    rfl
  · unfold decode_bqrs
    rw [h, if_neg (by simp), if_pos hrc]
  · unfold decode_bqrs
    rw [h, if_neg (by simp), if_neg (by simp [hrc])]

/-- Concrete check of C7 on the test scenarios: a missing file, a failing
decode command (`returncode 1`, stderr `Decode failed`), and a successful
decode whose stdout is returned verbatim. -/
theorem decode_bqrs_c7_witness :
    decode_bqrs false "/nonexistent/path/to/file.bqrs" ⟨0, "", ""⟩ =
      .error (.fileNotFound "/nonexistent/path/to/file.bqrs") ∧
    decode_bqrs true "/tmp/test.bqrs" ⟨1, "", "Decode failed"⟩ =
      .error (.decodeFailed "Failed to decode BQRS: Decode failed") ∧
    decode_bqrs true "/tmp/test.bqrs" ⟨0, "col1,col2", ""⟩ = .ok "col1,col2" :=
  ⟨(decode_bqrs_c7 false "/nonexistent/path/to/file.bqrs" ⟨0, "", ""⟩).1 rfl,
    (decode_bqrs_c7 true "/tmp/test.bqrs" ⟨1, "", "Decode failed"⟩).2.1 rfl (by decide),
    (decode_bqrs_c7 true "/tmp/test.bqrs" ⟨0, "col1,col2", ""⟩).2.2 rfl rfl⟩

/-! ## register_database (from `server.py` / `tools/database.py`)

The `register_database` tool resolves the database path, returns a
descriptive failure when the directory does not exist or when it lacks the
required `src.zip` source archive, and only otherwise issues the
`evaluation/registerDatabases` request to the query server.  Filesystem
existence is an environment parameter. -/

/-- Wire-visible actions of `register_database`. -/
inductive RegEffect where
  | sendRegisterDatabases (paths : List String)
deriving DecidableEq

/-- Model of `register_database`, as a function of whether the resolved directory
and its `src.zip` exist. -/
def register_database (dirExists srcZipExists : Bool) (db_path : String) :
    String × List RegEffect :=
  if !dirExists then ("Database path does not exist: " ++ db_path, [])
  else if !srcZipExists then ("Missing required src.zip in: " ++ db_path, [])
  else ("Database registered: " ++ db_path, [.sendRegisterDatabases [db_path]])

/-- C8: registering a database whose directory exists but lacks `src.zip`
returns the descriptive failure naming `src.zip` and issues no request to
the query-server subprocess; likewise (with its own message) when the
directory itself does not exist. -/
theorem register_database_c8 (dirExists srcZipExists : Bool) (db_path : String) :
    (dirExists = true → srcZipExists = false →
      register_database dirExists srcZipExists db_path =
        ("Missing required src.zip in: " ++ db_path, []) ∧
      ∃ pre post, (register_database dirExists srcZipExists db_path).1 =
        pre ++ "src.zip" ++ post) ∧
    (dirExists = false →
      register_database dirExists srcZipExists db_path =
        ("Database path does not exist: " ++ db_path, [])) := by
  constructor
  · intro hd hz
    subst hd hz
    refine ⟨rfl, "Missing required ", " in: " ++ db_path, ?_⟩
    show "Missing required src.zip in: " ++ db_path =
      "Missing required " ++ ("src.zip" ++ (" in: " ++ db_path))
    rw [← String.append_assoc, ← String.append_assoc]
    rw [show ("Missing required " ++ "src.zip" ++ " in: " : String) =
      "Missing required src.zip in: " from by decide]
  · intro hd
    subst hd
    rfl

/-- Concrete check of C8: a directory without `src.zip` and a missing
directory both fail without contacting the subprocess. -/
theorem register_database_c8_witness :
    (register_database true false "/tmp/incomplete_db" =
        ("Missing required src.zip in: " ++ "/tmp/incomplete_db", []) ∧
      ∃ pre post, (register_database true false "/tmp/incomplete_db").1 =
        pre ++ "src.zip" ++ post) ∧
    register_database false true "/nonexistent/path" =
      ("Database path does not exist: " ++ "/nonexistent/path", []) :=
  ⟨(register_database_c8 true false "/tmp/incomplete_db").1 rfl rfl,
    (register_database_c8 false true "/nonexistent/path").2 rfl⟩

/-! ## test_predicate_impl (from `tools/query.py`)

`test_predicate_impl` validates the query file, then tries the class
lookup, falls back to the predicate lookup only when the class lookup
raises ValueError, returns an error string naming the symbol when both
fail, and otherwise passes the found span to `quick_evaluate_and_wait`,
converting a RuntimeError from it into an error string.  Validation and
the lookup/evaluation outcomes are environment parameters. -/

/-- Observable steps of `test_predicate_impl`. -/
inductive TPEffect where
  | classLookup
  | predLookup
  | quickEval (span : Nat × Nat × Nat × Nat)
deriving DecidableEq

/-- Model of `test_predicate_impl`: here `validation` is the error of
`validate_query_file` when invalid, `classRes`/`predRes` are the outcomes
of the two identifier lookups, `evalRes` is the outcome of
`quick_evaluate_and_wait`. -/
def test_predicate_impl (validation : Option String)
    (classRes predRes : Except String (Nat × Nat × Nat × Nat))
    (evalRes : Except String Unit) (file symbol output_path : String) :
    String × List TPEffect :=
  match validation with
  | some err => ("Error: " ++ err, [])
  | none =>
    match classRes with
    | .ok span =>
      match evalRes with
      | .ok _ => (output_path, [.classLookup, .quickEval span])
      | .error re =>
        ("CodeQL evaluation failed: " ++ re, [.classLookup, .quickEval span])
    | .error _ =>
      match predRes with
      | .ok span =>
        match evalRes with
        | .ok _ => (output_path, [.classLookup, .predLookup, .quickEval span])
        | .error re =>
          ("CodeQL evaluation failed: " ++ re,
            [.classLookup, .predLookup, .quickEval span])
      | .error _ =>
        ("Error: Symbol '" ++ symbol ++ "' not found in " ++ file ++
          ". Make sure the class or predicate name is correct.",
          [.classLookup, .predLookup])

/-- C10: `test_predicate` tries the class lookup first and performs the
predicate lookup only if the class lookup failed; when both lookups fail it
returns an error string naming the symbol and never invokes quick
evaluation; otherwise it passes the span of whichever lookup succeeded to
`quick_evaluate_and_wait`. -/
theorem test_predicate_impl_c10 (validation : Option String)
    (classRes predRes : Except String (Nat × Nat × Nat × Nat))
    (evalRes : Except String Unit) (file symbol output_path : String) :
    (TPEffect.predLookup ∈
        (test_predicate_impl validation classRes predRes evalRes
          file symbol output_path).2 →
      ∃ e, classRes = .error e) ∧
    (∀ span, validation = none → classRes = .ok span →
      (test_predicate_impl validation classRes predRes evalRes
          file symbol output_path).2 = [.classLookup, .quickEval span]) ∧
    (∀ e span, validation = none → classRes = .error e → predRes = .ok span →
      (test_predicate_impl validation classRes predRes evalRes
          file symbol output_path).2 =
        [.classLookup, .predLookup, .quickEval span]) ∧
    (∀ e e2, validation = none → classRes = .error e → predRes = .error e2 →
      (test_predicate_impl validation classRes predRes evalRes
          file symbol output_path).2 = [.classLookup, .predLookup] ∧
      (∀ span, TPEffect.quickEval span ∉
        (test_predicate_impl validation classRes predRes evalRes
          file symbol output_path).2) ∧
      (test_predicate_impl validation classRes predRes evalRes
          file symbol output_path).1 =
        "Error: Symbol '" ++ symbol ++ "' not found in " ++ file ++
          ". Make sure the class or predicate name is correct." ∧
      ∃ pre post, (test_predicate_impl validation classRes predRes evalRes
          file symbol output_path).1 = pre ++ symbol ++ post) := by
  refine ⟨?_, ?_, ?_, ?_⟩
  · intro hmem
    cases validation with
    | some err => simp [test_predicate_impl] at hmem
    | none =>
      cases classRes with
      | ok span =>
        cases evalRes <;> simp [test_predicate_impl] at hmem
      | error e => exact ⟨e, rfl⟩
  · intro span hv hc
    subst hv hc
    cases evalRes <;> rfl
  · intro e span hv hc hp
    subst hv hc hp
    cases evalRes <;> rfl
  · intro e e2 hv hc hp
    subst hv hc hp
    refine ⟨rfl, fun span hmem => ?_, rfl, ?_⟩
    · simp [test_predicate_impl] at hmem
    · refine ⟨"Error: Symbol '", "' not found in " ++ file ++
        ". Make sure the class or predicate name is correct.", ?_⟩
      show "Error: Symbol '" ++ symbol ++ "' not found in " ++ file ++
          ". Make sure the class or predicate name is correct." =
        "Error: Symbol '" ++ symbol ++
          ("' not found in " ++ file ++
            ". Make sure the class or predicate name is correct.")
      simp [String.append_assoc]

/-- Concrete check of C10: with a failing class lookup and a successful
predicate lookup the span found by the predicate lookup is quick-evaluated
after both lookups; with both lookups failing, no quick evaluation happens
and the error string names the symbol. -/
theorem test_predicate_impl_c10_witness :
    (test_predicate_impl none (.error "Class name 'x' not found")
        (.ok (4, 11, 4, 23)) (.ok ()) "/tmp/q.ql" "x" "/tmp/quickeval.bqrs").2 =
      [.classLookup, .predLookup, .quickEval (4, 11, 4, 23)] ∧
    (test_predicate_impl none (.error "Class name 'x' not found")
        (.error "Predicate name 'x' not found") (.ok ()) "/tmp/q.ql" "x"
        "/tmp/quickeval.bqrs").2 = [.classLookup, .predLookup] ∧
    (∀ span, TPEffect.quickEval span ∉
      (test_predicate_impl none (.error "Class name 'x' not found")
        (.error "Predicate name 'x' not found") (.ok ()) "/tmp/q.ql" "x"
        "/tmp/quickeval.bqrs").2) :=
  ⟨(test_predicate_impl_c10 none (.error "Class name 'x' not found")
      (.ok (4, 11, 4, 23)) (.ok ()) "/tmp/q.ql" "x" "/tmp/quickeval.bqrs").2.2.1
      "Class name 'x' not found" (4, 11, 4, 23) rfl rfl rfl,
    ((test_predicate_impl_c10 none (.error "Class name 'x' not found")
      (.error "Predicate name 'x' not found") (.ok ()) "/tmp/q.ql" "x"
      "/tmp/quickeval.bqrs").2.2.2 "Class name 'x' not found"
      "Predicate name 'x' not found" rfl rfl rfl).1,
    ((test_predicate_impl_c10 none (.error "Class name 'x' not found")
      (.error "Predicate name 'x' not found") (.ok ()) "/tmp/q.ql" "x"
      "/tmp/quickeval.bqrs").2.2.2 "Class name 'x' not found"
      "Predicate name 'x' not found" rfl rfl rfl).2.1⟩
end CodeqlMcp
